import Mathlib

/-
  A shallow embedding of the SimpleFS file system (fs.c, final draft) and of
  the disk emulator's failure model (disk.c: a block read or write fails
  exactly when the block number is out of range).

  Modelling conventions, justified against the source:
  * The header fs.h is not among the provided sources; following the spec,
    the compile-time constants BLOCK_SIZE, POINTERS_PER_INODE,
    POINTERS_PER_BLOCK and INODES_PER_BLOCK are kept as parameters in a
    `Config` (the spec's example values are 4096 / 5 / 1024 / 128).
  * A disk block is a total function `Nat → Nat` from byte (or pointer)
    index to stored value; the inode table is kept as a `List Inode`
    alongside the data blocks, mirroring fs_load_inode / fs_save_inode of
    fs.c, which address one slot at a time.  Data pointers produced by the
    allocator always lie in the data region, so the two views never alias.
  * In fs_read, fs_write, fs_expand_file, fs_load_inode and fs_save_inode
    the source guards disk calls with `if (!disk_read(...))`; disk_read
    returns BLOCK_SIZE or DISK_FAILURE = -1, both nonzero, so those error
    branches are dead code and the embedding omits them: such a read simply
    yields the current (possibly meaningless) contents, and a disk_write to
    an out-of-range block is a no-op, exactly as in the emulator.
    Guards written `== DISK_FAILURE` (mount, format, create, bitmap
    initialization) are live and are modelled faithfully; paths on which the
    source calls exit(1) or fails an assert are modelled as `none`.
  * size_t arithmetic that can wrap (the read clamp `size - offset`, the
    write bound `offset + length`, the indirect index `i - PPI`) is taken
    modulo 2^64.
-/

namespace SFS

/-- Compile-time constants of fs.h.  Modelled from the spec: fs.h itself is
not part of the provided sources; the spec fixes the roles of BLOCK_SIZE,
POINTERS_PER_INODE, POINTERS_PER_BLOCK and INODES_PER_BLOCK and gives
4096 / 5 / 1024 / 128 as their values. -/
structure Config where
  blockSize : Nat
  pointersPerInode : Nat
  pointersPerBlock : Nat
  inodesPerBlock : Nat
deriving DecidableEq

/-- struct Inode of fs.h: a valid flag, a byte size, POINTERS_PER_INODE
direct block pointers and one indirect block pointer (0 = none). -/
structure Inode where
  valid : Bool
  size : Nat
  direct : List Nat
  indirect : Nat
deriving DecidableEq

/-- The all-zero inode produced by memset(&inode, 0, sizeof(inode)) and by
format's zero-filled inode blocks. -/
def zeroInode (cfg : Config) : Inode :=
  ⟨false, 0, List.replicate cfg.pointersPerInode 0, 0⟩

/-- Default used for out-of-range inode-table lookups. -/
def defaultInode : Inode := ⟨false, 0, [], 0⟩

/-- The mounted-state fragment touched by the file engine: fs->disk->blocks,
fs->meta_data.inode_blocks, the inode table (blocks 1..inode_blocks), the
in-memory free-block bitmap and the data blocks. -/
structure FS where
  diskBlocks : Nat
  inodeBlocks : Nat
  itable : List Inode
  free : Nat → Bool
  data : Nat → Nat → Nat

/-- 2^64: size_t arithmetic is modulo this. -/
def SIZE_T_MOD : Nat := 2 ^ 64

/-- size_t subtraction `a - b` (wraps modulo 2^64). -/
def sub64 (a b : Nat) : Nat := (SIZE_T_MOD + a - b) % SIZE_T_MOD

/-- UPPER_ROUND(x, size) from utils.h: (x + (size - 1)) / size. -/
def upperRound (x s : Nat) : Nat := (x + (s - 1)) / s

/-- The sz bytes of a block starting at byte pos. -/
def blockSlice (blk : Nat → Nat) (pos sz : Nat) : List Nat :=
  (List.range sz).map (fun t => blk (pos + t))

/-- memcpy(blk + pos, src + srcPos, sz): overlay sz bytes of src onto blk. -/
def overlayBytes (blk : Nat → Nat) (pos : Nat) (src : Nat → Nat) (srcPos sz : Nat) :
    Nat → Nat :=
  fun k => if pos ≤ k ∧ k < pos + sz then src (srcPos + (k - pos)) else blk k

/-- disk_write of a data block: out-of-range writes fail (and fs.c ignores
that failure), so they leave the disk unchanged. -/
def diskWriteData (fs : FS) (b : Nat) (blk : Nat → Nat) : FS :=
  if b < fs.diskBlocks then
    { fs with data := fun q => if q = b then blk else fs.data q }
  else fs

/-- The POINTERS_PER_BLOCK pointers of an indirect index block. -/
def readPtrBlock (cfg : Config) (fs : FS) (b : Nat) : List Nat :=
  (List.range cfg.pointersPerBlock).map (fun j => fs.data b j)

/-- A zero-terminated pointer scan: the source's loops
`for (k; k < bound && ptr[k]; ++k)` visit exactly this list. -/
def zeroTermList (l : List Nat) : List Nat := l.takeWhile (fun p => p != 0)

/-- fs_load_inode: fetch slot n, succeed iff its valid flag is set. -/
def fs_load_inode (fs : FS) (n : Nat) : Option Inode :=
  let nd := fs.itable.getD n defaultInode
  if nd.valid then some nd else none

/-- fs_save_inode: read-modify-write of slot n (always succeeds: the
source's two disk-failure branches are dead, see the header comment). -/
def fs_save_inode (fs : FS) (n : Nat) (nd : Inode) : FS :=
  { fs with itable := fs.itable.set n nd }

/-- The linear scan of fs_allocate_free_block:
`while (i < blocks && !free[i]) ++i`, with fuel for termination (fuel =
blocks always suffices since the scan starts at a nonnegative index). -/
def scanFree (free : Nat → Bool) (bound : Nat) : Nat → Nat → Option Nat
  | _, 0 => none
  | i, fuel + 1 =>
    if i < bound then (if free i then some i else scanFree free bound (i + 1) fuel)
    else none

/-- fs_allocate_free_block: first-fit scan from inode_blocks + 1 up to
disk->blocks; on success the chosen entry is flipped to not-free; on
exhaustion the source returns -1, modelled as `none`. -/
def fs_allocate_free_block (fs : FS) : Option Nat × FS :=
  match scanFree fs.free fs.diskBlocks (fs.inodeBlocks + 1) fs.diskBlocks with
  | some b => (some b, { fs with free := fun q => if q = b then false else fs.free q })
  | none => (none, fs)

/-- fs_release_free_block: asserts the block is currently not-free (a
double-free fails the assert, modelled as `none`), then marks it free. -/
def fs_release_free_block (fs : FS) (b : Nat) : Option FS :=
  if fs.free b = true then none
  else some { fs with free := fun q => if q = b then true else fs.free q }

/-- Release a list of blocks in order, aborting on the first failed assert. -/
def releaseAll : FS → List Nat → Option FS
  | fs, [] => some fs
  | fs, b :: rest =>
    match fs_release_free_block fs b with
    | none => none
    | some fs1 => releaseAll fs1 rest

/-- Number of free blocks in the allocator's scan range
[inode_blocks + 1, disk->blocks). -/
def countFreeData (fs : FS) : Nat :=
  (List.range fs.diskBlocks).countP
    (fun b => decide (fs.inodeBlocks + 1 ≤ b) && fs.free b)

/-- Mark every block of a list not-free in the bitmap. -/
def clearMany (bm : Nat → Bool) (l : List Nat) : Nat → Bool :=
  l.foldl (fun acc b => fun q => if q = b then false else acc q) bm

/-- One valid inode's contribution to fs_initialize_free_block_bitmap:
mark the zero-terminated direct pointers, then the indirect block and the
zero-terminated pointers stored in it.  Reading the indirect block checks
`== DISK_FAILURE` and calls exit(1) on failure, so an out-of-range indirect
pointer aborts (`none`). -/
def markInode (cfg : Config) (diskB : Nat) (dataF : Nat → Nat → Nat)
    (bm : Nat → Bool) (nd : Inode) : Option (Nat → Bool) :=
  if nd.valid then
    let bm1 := clearMany bm (zeroTermList (nd.direct.take cfg.pointersPerInode))
    if nd.indirect != 0 then
      let bm2 : Nat → Bool := fun q => if q = nd.indirect then false else bm1 q
      if nd.indirect < diskB then
        some (clearMany bm2
          (zeroTermList ((List.range cfg.pointersPerBlock).map (dataF nd.indirect))))
      else none
    else some bm1
  else some bm

/-- Fold markInode over the inode table in order. -/
def markAll (cfg : Config) (diskB : Nat) (dataF : Nat → Nat → Nat) :
    (Nat → Bool) → List Inode → Option (Nat → Bool)
  | bm, [] => some bm
  | bm, nd :: rest =>
    match markInode cfg diskB dataF bm nd with
    | none => none
    | some bm1 => markAll cfg diskB dataF bm1 rest

/-- fs_initialize_free_block_bitmap of fs.c: blocks 0..inode_blocks not
free, blocks inode_blocks+1..meta.blocks-1 free (entries past meta.blocks
are never initialized by the source; the model leaves them not-free), then
every block reachable from a valid inode is marked not-free.  Reading an
inode block checks `== DISK_FAILURE` and exits on failure, which happens
exactly when some inode block number 1..inode_blocks is out of disk range. -/
def fs_build_free_block_bitmap (cfg : Config) (inodeB metaB diskB : Nat)
    (itable : List Inode) (dataF : Nat → Nat → Nat) : Option (Nat → Bool) :=
  let bm0 : Nat → Bool := fun b => if b ≤ inodeB then false else if b < metaB then true else false
  if inodeB ≠ 0 ∧ diskB ≤ inodeB then none
  else markAll cfg diskB dataF bm0 itable

/-- Does inode nd reach block b, via a direct pointer, as the indirect
index block, or via an entry of the indirect index block?  Pointer arrays
are zero-terminated, exactly as the source scans them. -/
def inodeReaches (cfg : Config) (dataF : Nat → Nat → Nat) (nd : Inode) (b : Nat) : Bool :=
  nd.valid &&
    ((zeroTermList (nd.direct.take cfg.pointersPerInode)).contains b ||
      (nd.indirect != 0 &&
        (nd.indirect == b ||
          (zeroTermList ((List.range cfg.pointersPerBlock).map (dataF nd.indirect))).contains b)))

/-- Does any inode of the table reach block b? -/
def anyReaches (cfg : Config) (dataF : Nat → Nat → Nat) (itable : List Inode) (b : Nat) : Bool :=
  itable.any (fun nd => inodeReaches cfg dataF nd b)

/-- SuperBlock of fs.h: magic number, total blocks, inode blocks, inodes. -/
structure SuperBlock where
  magic : Nat
  blocks : Nat
  inodeBlocks : Nat
  inodes : Nat
deriving DecidableEq

/-- MAGIC_NUMBER (0xf0f03410).  Modelled from the spec: fs.h is not among
the provided sources; only its role (a fixed 32-bit tag) matters here. -/
def MAGIC_NUMBER : Nat := 0xf0f03410

/-- A disk image as fs_mount and fs_format see it: the emulator's block
count, plus block 0 (the superblock), the inode-table blocks and the raw
blocks. -/
structure DiskM where
  nblocks : Nat
  super : SuperBlock
  itable : List Inode
  dataF : Nat → Nat → Nat

/-- The FileSystem fields fs_mount touches: the attached disk, the
superblock copy and the bitmap. -/
structure MountState where
  disk : Option DiskM
  meta : SuperBlock
  free : Option (Nat → Bool)

/-- fs_mount of fs.c.  Note the source attaches the disk (fs->disk = disk)
and copies the superblock BEFORE validating; rejected mounts keep both.
Validation order: magic number, then inodes = inode_blocks * IPB, then
inode_blocks = ceil(blocks / 10).  A failing superblock read (block 0 out
of range, i.e. an empty disk) returns false; a bitmap-initialization abort
is `none`. -/
def fs_mount (cfg : Config) (ms : MountState) (disk : Option DiskM) :
    Option (Bool × MountState) :=
  match disk with
  | none => some (false, ms)
  | some d =>
    if ms.disk.isNone then
      let ms1 := { ms with disk := some d }
      if d.nblocks = 0 then some (false, ms1)
      else
        let ms2 := { ms1 with meta := d.super }
        if d.super.magic ≠ MAGIC_NUMBER then some (false, ms2)
        else if d.super.inodeBlocks * cfg.inodesPerBlock ≠ d.super.inodes then
          some (false, ms2)
        else if d.super.inodeBlocks ≠ (d.super.blocks + 9) / 10 then
          some (false, ms2)
        else
          match fs_build_free_block_bitmap cfg d.super.inodeBlocks d.super.blocks
              d.nblocks d.itable d.dataF with
          | none => none
          | some bm => some (true, { ms2 with free := some bm })
    else some (false, ms)

/-- The inode-clearing loop of fs_format: write a zero block to blocks
1..inode_size; returns the updated image, the success flag of every
disk_write performed, and whether the loop ran to completion (the source
returns false at the first failed write). -/
def formatClear (cfg : Config) : Nat → Nat → DiskM → List Bool → DiskM × List Bool × Bool
  | _, 0, d, ws => (d, ws, true)
  | i, fuel + 1, d, ws =>
    if i + 1 < d.nblocks then
      formatClear cfg (i + 1) fuel
        { d with itable := d.itable.mapIdx (fun j nd =>
            if i * cfg.inodesPerBlock ≤ j ∧ j < (i + 1) * cfg.inodesPerBlock then
              zeroInode cfg else nd) }
        (ws ++ [true])
    else (d, ws ++ [false], false)

/-- fs_format of fs.c (final draft), instrumented with the list of
disk_write success flags so that the claim "success iff every performed
write succeeded" can be stated.  The source refuses a FileSystem that
already has a disk; it then reads block 0 (returning false if that read
fails, which the emulator makes happen exactly on an empty disk), clears
the inode blocks (returning false at the first failed write), and writes
the superblock {MAGIC_NUMBER, blocks, I, I * INODES_PER_BLOCK}; a failure
of that last write is exit(1), modelled `none`. -/
def fs_format_instr (cfg : Config) (mounted : Bool) (d : DiskM) :
    Option (Bool × DiskM × List Bool) :=
  if mounted then some (false, d, [])
  else
    let iSize := (d.nblocks + 9) / 10
    if d.nblocks = 0 then some (false, d, [])
    else
      match formatClear cfg 0 iSize d [] with
      | (d1, ws, ok) =>
        if ok then
          if 0 < d1.nblocks then
            some (true,
              { d1 with super := ⟨MAGIC_NUMBER, d1.nblocks, iSize, iSize * cfg.inodesPerBlock⟩ },
              ws ++ [true])
          else none
        else some (false, d1, ws)

/-- fs_create: scan the table in order; mark the first invalid slot valid
(the other fields of the slot are NOT cleared) and return its number;
`none` models the -1 of a full table. -/
def fs_create (fs : FS) : Option (Nat × FS) :=
  match fs.itable.findIdx? (fun nd => !nd.valid) with
  | some k =>
    some (k, { fs with itable := fs.itable.set k { fs.itable.getD k defaultInode with valid := true } })
  | none => none

/-- fs_remove: load the inode (an invalid slot returns false), release the
zero-terminated direct pointers, then the zero-terminated pointers of the
indirect block and the indirect block itself, then save an all-zero inode.
A release whose double-free assert fires aborts (`none`). -/
def fs_remove (cfg : Config) (fs : FS) (n : Nat) : Option (Bool × FS) :=
  match fs_load_inode fs n with
  | none => some (false, fs)
  | some nd =>
    match releaseAll fs (zeroTermList (nd.direct.take cfg.pointersPerInode)) with
    | none => none
    | some fs1 =>
      if nd.indirect != 0 then
        match releaseAll fs1 (zeroTermList (readPtrBlock cfg fs1 nd.indirect)) with
        | none => none
        | some fs2 =>
          match fs_release_free_block fs2 nd.indirect with
          | none => none
          | some fs3 => some (true, fs_save_inode fs3 n (zeroInode cfg))
      else some (true, fs_save_inode fs1 n (zeroInode cfg))

/-- fs_stat: the size of the inode, or the -1 sentinel (`none`) when the
load fails. -/
def fs_stat (fs : FS) (n : Nat) : Option Nat :=
  (fs_load_inode fs n).map Inode.size

/-- The direct-pointer allocation loop of fs_expand_file:
`while (idx < PPI && dif && (b = allocate()) != -1) direct[idx++] = b, --dif`.
Returns the updated direct array, the final idx, the remaining dif and the
state. -/
def allocLoopDirect (cfg : Config) : Nat → List Nat → Nat → FS → List Nat × Nat × Nat × FS
  | 0, direct, idx, fs => (direct, idx, 0, fs)
  | dif + 1, direct, idx, fs =>
    if idx < cfg.pointersPerInode then
      match fs_allocate_free_block fs with
      | (some b, fs1) => allocLoopDirect cfg dif (direct.set idx b) (idx + 1) fs1
      | (none, fs1) => (direct, idx, dif + 1, fs1)
    else (direct, idx, dif + 1, fs)

/-- The indirect-pointer allocation loop of fs_expand_file, identical in
shape but bounded by POINTERS_PER_BLOCK. -/
def allocLoopPtrs (cfg : Config) : Nat → List Nat → Nat → FS → List Nat × Nat × Nat × FS
  | 0, ptrs, j, fs => (ptrs, j, 0, fs)
  | dif + 1, ptrs, j, fs =>
    if j < cfg.pointersPerBlock then
      match fs_allocate_free_block fs with
      | (some b, fs1) => allocLoopPtrs cfg dif (ptrs.set j b) (j + 1) fs1
      | (none, fs1) => (ptrs, j, dif + 1, fs1)
    else (ptrs, j, dif + 1, fs)

/-- The final size assignment of fs_expand_file:
`node->size = dif ? (new_blocks - dif) * BLOCK_SIZE : new_size`. -/
def expandFinalSize (cfg : Config) (newSize newBlocks dif : Nat) : Nat :=
  if dif = 0 then newSize else (newBlocks - dif) * cfg.blockSize

/-- A pointer array written back as a block. -/
def listToBlock (l : List Nat) : Nat → Nat := fun k => l.getD k 0

/-- fs_expand_file of fs.c, additionally returning the final remaining
block deficit (the source's `dif`).  Structure of the source: if the block
count grows, fill direct pointers from idx = ceil(size / BLOCK_SIZE); if
idx reached POINTERS_PER_INODE, allocate the indirect block when absent
(treating a fresh one as all-zero), fill its pointers from
idx - POINTERS_PER_INODE, release a fresh indirect block again when no
pointer was placed in it, otherwise write it back; finally
size = dif ? (new_blocks - dif) * BLOCK_SIZE : new_size.  If the block
count does not grow, size = max(size, new_size).  The release in the
fresh-indirect branch cannot fail its assert (the block was just allocated,
so its bitmap entry is false), hence it is inlined without the
Option. -/
def fs_expand_core (cfg : Config) (fs : FS) (nd : Inode) (newSize : Nat) :
    Inode × FS × Nat :=
  let oldBlocks := upperRound nd.size cfg.blockSize
  let newBlocks := upperRound newSize cfg.blockSize
  if oldBlocks < newBlocks then
    match allocLoopDirect cfg (newBlocks - oldBlocks) nd.direct oldBlocks fs with
    | (dir1, idx1, dif1, fs1) =>
      if cfg.pointersPerInode ≤ idx1 then
        let j0 := idx1 - cfg.pointersPerInode
        match (if nd.indirect = 0 then fs_allocate_free_block fs1 else (some nd.indirect, fs1)) with
        | (indOpt, fs2) =>
          match indOpt with
          | none =>
            ({ nd with
                direct := dir1
                indirect := 0
                size := expandFinalSize cfg newSize newBlocks dif1 }, fs2, dif1)
          | some indPtr =>
            let wasNew := nd.indirect = 0
            let basePtrs :=
              if wasNew then List.replicate cfg.pointersPerBlock 0
              else readPtrBlock cfg fs2 indPtr
            match allocLoopPtrs cfg dif1 basePtrs j0 fs2 with
            | (ptrs1, j1, dif2, fs3) =>
              if j1 = 0 ∧ wasNew then
                let fs4 := { fs3 with free := fun q => if q = indPtr then true else fs3.free q }
                ({ nd with
                    direct := dir1
                    indirect := 0
                    size := expandFinalSize cfg newSize newBlocks dif2 }, fs4, dif2)
              else
                let fs4 := diskWriteData fs3 indPtr (listToBlock ptrs1)
                ({ nd with
                    direct := dir1
                    indirect := indPtr
                    size := expandFinalSize cfg newSize newBlocks dif2 }, fs4, dif2)
      else
        ({ nd with
            direct := dir1
            size := expandFinalSize cfg newSize newBlocks dif1 }, fs1, dif1)
  else
    ({ nd with size := max nd.size newSize }, fs, 0)

/-- fs_expand_file (dropping the instrumented deficit). -/
def fs_expand_file (cfg : Config) (fs : FS) (nd : Inode) (newSize : Nat) : Inode × FS :=
  match fs_expand_core cfg fs nd newSize with
  | (nd1, fs1, _) => (nd1, fs1)

/-- The copying loop of fs_write over a pointer array (used for both the
direct and the indirect phase; the source computes
sz = min(BLOCK_SIZE - offset, length - bytes_write) in both):
read-modify-write each block while the pointer is nonzero and bytes remain,
zeroing the offset after the first block.  Returns bytes written, the final
offset, the number of blocks consumed and the state. -/
def writeLoop (cfg : Config) (buf : Nat → Nat) (length : Nat) :
    List Nat → Nat → Nat → Nat → FS → Nat × Nat × Nat × FS
  | [], bw, off, steps, fs => (bw, off, steps, fs)
  | p :: rest, bw, off, steps, fs =>
    if p ≠ 0 ∧ bw < length then
      let sz := min (cfg.blockSize - off) (length - bw)
      let fs1 := diskWriteData fs p (overlayBytes (fs.data p) off buf bw sz)
      writeLoop cfg buf length rest (bw + sz) 0 (steps + 1) fs1
    else (bw, off, steps, fs)

/-- fs_write of fs.c: load the inode, expand to offset + length (size_t
arithmetic), copy through the direct pointers from block offset / BLOCK_SIZE,
then through the indirect pointers (index i - POINTERS_PER_INODE, a size_t
subtraction), and save the inode.  `none` models the -1 of a failed load
(the state is unchanged on that path). -/
def fs_write (cfg : Config) (fs : FS) (n : Nat) (buf : Nat → Nat)
    (length offset : Nat) : Option (Nat × FS) :=
  match fs_load_inode fs n with
  | none => none
  | some nd0 =>
    match fs_expand_file cfg fs nd0 ((offset + length) % SIZE_T_MOD) with
    | (nd, fs1) =>
      let i0 := offset / cfg.blockSize
      let off0 := offset % cfg.blockSize
      match writeLoop cfg buf length (nd.direct.drop i0) 0 off0 0 fs1 with
      | (bw1, off1, steps1, fs2) =>
        let i1 := i0 + steps1
        if bw1 < length ∧ nd.indirect ≠ 0 then
          let ptrs := readPtrBlock cfg fs2 nd.indirect
          let j0 := sub64 i1 cfg.pointersPerInode
          match writeLoop cfg buf length (ptrs.drop j0) bw1 off1 0 fs2 with
          | (bw2, _, _, fs3) => some (bw2, fs_save_inode fs3 n nd)
        else some (bw1, fs_save_inode fs2 n nd)

/-- The direct-pointer loop of fs_read:
sz = min(BLOCK_SIZE - offset, length - bytes_read), copied from block
position offset % BLOCK_SIZE.  Returns bytes read, final offset, blocks
consumed, and the bytes gathered. -/
def readLoopD (cfg : Config) (fs : FS) (length : Nat) :
    List Nat → Nat → Nat → Nat → List Nat → Nat × Nat × Nat × List Nat
  | [], br, off, steps, out => (br, off, steps, out)
  | p :: rest, br, off, steps, out =>
    if p ≠ 0 ∧ br < length then
      let sz := min (cfg.blockSize - off) (length - br)
      readLoopD cfg fs length rest (br + sz) 0 (steps + 1)
        (out ++ blockSlice (fs.data p) (off % cfg.blockSize) sz)
    else (br, off, steps, out)

/-- The indirect-pointer loop of fs_read AS THE SOURCE WRITES IT:
sz = min(BLOCK_SIZE, length - bytes_read), copied from block position
offset (NOT bounded by BLOCK_SIZE - offset). -/
def readLoopI (cfg : Config) (fs : FS) (length : Nat) :
    List Nat → Nat → Nat → List Nat → Nat × List Nat
  | [], br, _, out => (br, out)
  | p :: rest, br, off, out =>
    if p ≠ 0 ∧ br < length then
      let sz := min cfg.blockSize (length - br)
      readLoopI cfg fs length rest (br + sz) 0 (out ++ blockSlice (fs.data p) off sz)
    else (br, out)

/-- Result of fs_read: -1 from a failed inode load, an abort of the final
assert(bytes_read == length), or the byte count with the bytes placed in
the caller's buffer. -/
inductive ReadResult where
  | err : ReadResult
  | abort : ReadResult
  | ok : Nat → List Nat → ReadResult
deriving DecidableEq

/-- fs_read of fs.c: load the inode, clamp
length = min(length, size - offset) in size_t arithmetic, copy through the
direct then the indirect pointers, and assert(bytes_read == length). -/
def fs_read (cfg : Config) (fs : FS) (n : Nat) (length0 offset : Nat) : ReadResult :=
  match fs_load_inode fs n with
  | none => ReadResult.err
  | some nd =>
    let length := min length0 (sub64 nd.size offset)
    let i0 := offset / cfg.blockSize
    let off0 := offset % cfg.blockSize
    match readLoopD cfg fs length (nd.direct.drop i0) 0 off0 0 [] with
    | (br1, off1, steps1, out1) =>
      let i1 := i0 + steps1
      if br1 < length ∧ nd.indirect ≠ 0 then
        let ptrs := readPtrBlock cfg fs nd.indirect
        let j0 := sub64 i1 cfg.pointersPerInode
        match readLoopI cfg fs length (ptrs.drop j0) br1 off1 [] with
        | (br2, out2) =>
          if br2 = length then ReadResult.ok br2 (out1 ++ out2) else ReadResult.abort
      else if br1 = length then ReadResult.ok br1 out1 else ReadResult.abort

/-- Modelled from the spec (4.6, read, step 2): the indirect-pointer loop
as the specification states it, copying min(BLOCK_SIZE - offset, remaining)
bytes from position offset.  This is the comparison point for the
indirect-read claim; it differs from readLoopI only in sz. -/
def readLoopISpec (cfg : Config) (fs : FS) (length : Nat) :
    List Nat → Nat → Nat → List Nat → Nat × List Nat
  | [], br, _, out => (br, out)
  | p :: rest, br, off, out =>
    if p ≠ 0 ∧ br < length then
      let sz := min (cfg.blockSize - off) (length - br)
      readLoopISpec cfg fs length rest (br + sz) 0 (out ++ blockSlice (fs.data p) off sz)
    else (br, out)

/-- Modelled from the spec: fs_read with the indirect loop of §4.6 (its
only difference from fs_read). -/
def fs_readSpec (cfg : Config) (fs : FS) (n : Nat) (length0 offset : Nat) : ReadResult :=
  match fs_load_inode fs n with
  | none => ReadResult.err
  | some nd =>
    let length := min length0 (sub64 nd.size offset)
    let i0 := offset / cfg.blockSize
    let off0 := offset % cfg.blockSize
    match readLoopD cfg fs length (nd.direct.drop i0) 0 off0 0 [] with
    | (br1, off1, steps1, out1) =>
      let i1 := i0 + steps1
      if br1 < length ∧ nd.indirect ≠ 0 then
        let ptrs := readPtrBlock cfg fs nd.indirect
        let j0 := sub64 i1 cfg.pointersPerInode
        match readLoopISpec cfg fs length (ptrs.drop j0) br1 off1 [] with
        | (br2, out2) =>
          if br2 = length then ReadResult.ok br2 (out1 ++ out2) else ReadResult.abort
      else if br1 = length then ReadResult.ok br1 out1 else ReadResult.abort

/-! ### Concrete witness states and derived definitions -/

/-- A tiny mounted state used to exercise the allocator. -/
def fsW6 : FS :=
  { diskBlocks := 8, inodeBlocks := 1, itable := [],
    free := fun b => decide (3 ≤ b ∧ b < 8), data := fun _ _ => 0 }

/-- A small configuration: BLOCK_SIZE 8, POINTERS_PER_INODE 2,
POINTERS_PER_BLOCK 4, INODES_PER_BLOCK 4. -/
def cfgW : Config := ⟨8, 2, 4, 4⟩

/-- A fresh FileSystem (no disk attached). -/
def msW4 : MountState := { disk := none, meta := ⟨0, 0, 0, 0⟩, free := none }

/-- An image whose superblock has an invalid magic number (0). -/
def dW4 : DiskM := { nblocks := 8, super := ⟨0, 8, 1, 4⟩, itable := [], dataF := fun _ _ => 0 }

/-- Mounted state with a valid inode of size 5 backed by data block 3;
every block's bytes are 100 * block + index. -/
def fsW10 : FS :=
  { diskBlocks := 12, inodeBlocks := 1, itable := [⟨true, 5, [3, 0], 0⟩],
    free := fun b => decide (4 ≤ b ∧ b < 12), data := fun b k => 100 * b + k }

/-- Mounted state with a fresh (size-0, pointerless) valid inode. -/
def fsW10a : FS :=
  { diskBlocks := 12, inodeBlocks := 1, itable := [⟨true, 0, [0, 0], 0⟩],
    free := fun b => decide (2 ≤ b ∧ b < 12), data := fun _ _ => 0 }

/-- Configuration with a single direct pointer, so that reads can start
inside the indirect region. -/
def cfgW2 : Config := ⟨8, 1, 4, 4⟩

/-- A 24-byte file: one direct block (3), indirect index block 4 holding
data blocks 5 and 6; bytes of block b are 100 * b + index. -/
def fsW2 : FS :=
  { diskBlocks := 12, inodeBlocks := 1, itable := [⟨true, 24, [3], 4⟩],
    free := fun b => decide (7 ≤ b ∧ b < 12),
    data := fun b k =>
      if b = 4 then (if k = 0 then 5 else if k = 1 then 6 else 0) else 100 * b + k }

/-- Mounted state with one invalid inode slot holding a stale direct
pointer to the free data block 5 (fs_create does not clear the slots it
hands out, so the stale pointer survives creation). -/
def fsW9 : FS :=
  { diskBlocks := 12, inodeBlocks := 1, itable := [⟨false, 0, [5, 0], 0⟩],
    free := fun b => decide (2 ≤ b ∧ b < 12), data := fun _ _ => 0 }

/-- The state right after fs_create on fsW9. -/
def fsW9c : FS := ((fs_create fsW9).getD (0, fsW9)).2

/-- A valid image: 10 blocks, 1 inode block holding 4 slots, slot 0 valid
with size 5 backed by data block 3. -/
def dW5 : DiskM :=
  { nblocks := 10, super := ⟨MAGIC_NUMBER, 10, 1, 4⟩,
    itable := [⟨true, 5, [3, 0], 0⟩, ⟨false, 0, [0, 0], 0⟩,
               ⟨false, 0, [0, 0], 0⟩, ⟨false, 0, [0, 0], 0⟩],
    dataF := fun _ _ => 0 }

/-- A fresh FileSystem for the C5 witness. -/
def msW5 : MountState := { disk := none, meta := ⟨0, 0, 0, 0⟩, free := none }

/-- The FileSystem after the successful mount of dW5. -/
def msW5r : MountState := ((fs_mount cfgW msW5 (some dW5)).getD (false, msW5)).2

/-- The reconstructed bitmap of that mount. -/
def bmW5 : Nat → Bool := msW5r.free.getD (fun _ => false)

/-- An empty image (0 blocks): the emulator fails the superblock read. -/
def dW7 : DiskM := { nblocks := 0, super := ⟨0, 0, 0, 0⟩, itable := [], dataF := fun _ _ => 0 }

/-- The image and write log produced by formatting dW5. -/
def dW7r : DiskM × List Bool := ((fs_format_instr cfgW false dW5).getD (false, dW5, [])).2

/-- A mounted state whose single invalid slot is clean (no stale
pointers). -/
def fsW9b : FS :=
  { diskBlocks := 12, inodeBlocks := 1, itable := [⟨false, 0, [0, 0], 0⟩],
    free := fun b => decide (2 ≤ b ∧ b < 12), data := fun _ _ => 0 }

/-- The state right after fs_create on fsW9b. -/
def fsW9bc : FS := ((fs_create fsW9b).getD (0, fsW9b)).2

/-- Write the blocks of bs into l at consecutive positions from i
(the effect of the source's `arr[idx++] = b` loops). -/
def setMany : List Nat → Nat → List Nat → List Nat
  | l, _, [] => l
  | l, i, b :: bs => setMany (l.set i b) (i + 1) bs

/-- The number of free data blocks a full expansion of a fresh inode to L
bytes consumes: one per data block, plus the indirect index block when the
file spills past the direct pointers. -/
def neededBlocks (cfg : Config) (L : Nat) : Nat :=
  upperRound L cfg.blockSize +
    (if cfg.pointersPerInode < upperRound L cfg.blockSize then 1 else 0)

/-- Config with the block-count shape of the C3 scenario: BLOCK_SIZE 8,
POINTERS_PER_INODE 5, POINTERS_PER_BLOCK 4, INODES_PER_BLOCK 4. -/
def cfgW3 : Config := ⟨8, 5, 4, 4⟩

/-- Mounted image with one empty inode slot and exactly 3 free data blocks
(blocks 2, 3, 4 of the allocator range 2..5). -/
def fsW3b : FS :=
  { diskBlocks := 6, inodeBlocks := 1, itable := [⟨false, 0, [0, 0, 0, 0, 0], 0⟩],
    free := fun b => decide (2 ≤ b ∧ b < 5), data := fun _ _ => 0 }

/-- The state right after fs_create on fsW3b. -/
def fsW3 : FS := ((fs_create fsW3b).getD (0, fsW3b)).2

/-- The buffer written in the C3 scenario. -/
def bufW3 : Nat → Nat := fun i => (i + 7) % 256

/-- Mounted image with a single free data block (block 2) and a fresh
valid inode in slot 0. -/
def fsW8 : FS :=
  { diskBlocks := 4, inodeBlocks := 1, itable := [⟨true, 0, [0, 0], 0⟩],
    free := fun b => decide (b = 2), data := fun _ _ => 0 }

/-- The state fs_write leaves behind in the witness scenario. -/
def fsW8w : FS := ((fs_write cfgW fsW8 0 bufW3 8 16).getD (0, fsW8)).2

/-- Mounted image with a fresh valid inode in slot 0 and eight free data
blocks, enough for a 20-byte file crossing into the indirect region. -/
def fsW1 : FS :=
  { diskBlocks := 10, inodeBlocks := 1, itable := [⟨true, 0, [0, 0], 0⟩],
    free := fun b => decide (2 ≤ b ∧ b < 10), data := fun _ _ => 0 }

/-! ### Allocator lemmas -/

lemma scanFree_some {free : Nat → Bool} {bound : Nat} :
    ∀ {fuel i b : Nat}, scanFree free bound i fuel = some b →
      i ≤ b ∧ b < bound ∧ free b = true ∧ ∀ c, i ≤ c → c < b → free c = false := by
  intro fuel
  induction fuel with
  | zero => intro i b h; simp [scanFree] at h
  | succ f ih =>
    intro i b h
    rw [scanFree] at h
    by_cases hi : i < bound
    · rw [if_pos hi] at h
      by_cases hf : free i
      · rw [if_pos hf] at h
        cases h
        exact ⟨le_refl _, hi, hf, fun c hc1 hc2 => absurd (lt_of_le_of_lt hc1 hc2) (lt_irrefl _)⟩
      · rw [if_neg hf] at h
        obtain ⟨h1, h2, h3, h4⟩ := ih h
        refine ⟨le_trans (Nat.le_succ i) h1, h2, h3, ?_⟩
        intro c hc1 hc2
        rcases Nat.eq_or_lt_of_le hc1 with hc | hc
        · simpa [← hc] using hf
        · exact h4 c hc hc2
    · rw [if_neg hi] at h
      exact absurd h (by simp)

lemma scanFree_none {free : Nat → Bool} {bound : Nat} :
    ∀ {fuel i : Nat}, bound ≤ i + fuel → scanFree free bound i fuel = none →
      ∀ c, i ≤ c → c < bound → free c = false := by
  intro fuel
  induction fuel with
  | zero =>
    intro i hfuel _ c hc1 hc2
    omega
  | succ f ih =>
    intro i hfuel h c hc1 hc2
    rw [scanFree] at h
    have hi : i < bound := lt_of_le_of_lt hc1 hc2
    rw [if_pos hi] at h
    by_cases hf : free i
    · rw [if_pos hf] at h; exact absurd h (by simp)
    · rw [if_neg hf] at h
      rcases Nat.eq_or_lt_of_le hc1 with hc | hc
      · simpa [← hc] using hf
      · exact ih (by omega) h c hc hc2

lemma alloc_eq_some {fs : FS} {b : Nat}
    (hscan : scanFree fs.free fs.diskBlocks (fs.inodeBlocks + 1) fs.diskBlocks = some b) :
    fs_allocate_free_block fs =
      (some b, { fs with free := fun q => if q = b then false else fs.free q }) := by
  unfold fs_allocate_free_block
  rw [hscan]

lemma alloc_eq_none {fs : FS}
    (hscan : scanFree fs.free fs.diskBlocks (fs.inodeBlocks + 1) fs.diskBlocks = none) :
    fs_allocate_free_block fs = (none, fs) := by
  unfold fs_allocate_free_block
  rw [hscan]

/-- fs_allocate_free_block, success case: the result is the smallest free
index at or above inode_blocks + 1, it is nonzero and in the data range,
and the only state change is flipping that bitmap entry to not-free. -/
lemma alloc_some {fs : FS} {b : Nat}
    (h : (fs_allocate_free_block fs).1 = some b) :
    fs.inodeBlocks + 1 ≤ b ∧ b < fs.diskBlocks ∧ fs.free b = true ∧ b ≠ 0 ∧
      (∀ c, fs.inodeBlocks + 1 ≤ c → c < b → fs.free c = false) ∧
      (fs_allocate_free_block fs).2 =
        { fs with free := fun q => if q = b then false else fs.free q } := by
  rcases hscan : scanFree fs.free fs.diskBlocks (fs.inodeBlocks + 1) fs.diskBlocks with _ | b'
  · rw [alloc_eq_none hscan] at h
    exact absurd h (by simp)
  · rw [alloc_eq_some hscan] at h ⊢
    simp only [Option.some.injEq] at h
    subst h
    obtain ⟨h1, h2, h3, h4⟩ := scanFree_some hscan
    exact ⟨h1, h2, h3, by omega, h4, rfl⟩

/-- fs_allocate_free_block, failure case: every data-range bitmap entry is
not-free and the state is unchanged. -/
lemma alloc_none {fs : FS}
    (h : (fs_allocate_free_block fs).1 = none) :
    (∀ c, fs.inodeBlocks + 1 ≤ c → c < fs.diskBlocks → fs.free c = false) ∧
      (fs_allocate_free_block fs).2 = fs := by
  rcases hscan : scanFree fs.free fs.diskBlocks (fs.inodeBlocks + 1) fs.diskBlocks with _ | b'
  · rw [alloc_eq_none hscan]
    exact ⟨scanFree_none (by omega) hscan, rfl⟩
  · rw [alloc_eq_some hscan] at h
    exact absurd h (by simp)

/-- C6: for every mounted state, fs_allocate_free_block returns the
smallest free index at or above inode_blocks + 1 (flipping exactly that
bitmap entry to not-free and touching nothing else), never returns 0, and
returns the failure sentinel exactly when no block of the scan range is
free. -/
theorem allocate_free_block_correct (fs : FS) :
    (∀ b, (fs_allocate_free_block fs).1 = some b →
      fs.inodeBlocks + 1 ≤ b ∧ b < fs.diskBlocks ∧ fs.free b = true ∧ b ≠ 0 ∧
        (∀ c, fs.inodeBlocks + 1 ≤ c → c < b → fs.free c = false) ∧
        (∀ q, ((fs_allocate_free_block fs).2).free q =
          (if q = b then false else fs.free q)) ∧
        ((fs_allocate_free_block fs).2).itable = fs.itable ∧
        ((fs_allocate_free_block fs).2).data = fs.data ∧
        ((fs_allocate_free_block fs).2).diskBlocks = fs.diskBlocks ∧
        ((fs_allocate_free_block fs).2).inodeBlocks = fs.inodeBlocks) ∧
    ((fs_allocate_free_block fs).1 = none ↔
      ∀ c, fs.inodeBlocks + 1 ≤ c → c < fs.diskBlocks → fs.free c = false) := by
  constructor
  · intro b h
    obtain ⟨h1, h2, h3, h4, h5, h6⟩ := alloc_some h
    refine ⟨h1, h2, h3, h4, h5, ?_, ?_, ?_, ?_, ?_⟩ <;> simp [h6]
  · constructor
    · intro h
      exact (alloc_none h).1
    · intro hall
      rcases halloc : (fs_allocate_free_block fs).1 with _ | b
      · rfl
      · obtain ⟨h1, h2, h3, _⟩ := alloc_some halloc
        rw [hall b h1 h2] at h3
        exact absurd h3 (by simp)

/-- C6 witness: on a concrete state whose free range is [3, 8), the
allocator hands out block 3, which is free, nonzero and in range. -/
theorem allocate_free_block_correct_witness :
    fsW6.inodeBlocks + 1 ≤ 3 ∧ 3 < fsW6.diskBlocks ∧ fsW6.free 3 = true ∧ (3 : Nat) ≠ 0 :=
  have h := (allocate_free_block_correct fsW6).1 3 (by decide)
  ⟨h.1, h.2.1, h.2.2.1, h.2.2.2.1⟩

/-! ### Concrete states for the computational claims -/

/-- C4: mount failure is claimed to be atomic, but fs_mount assigns
fs->disk = disk before validating the superblock and never detaches it on
rejection: mounting an image with an invalid magic number on a fresh
FileSystem returns failure with the disk still attached. -/
theorem mount_reject_keeps_disk :
    (fs_mount cfgW msW4 (some dW4)).map (fun r => (r.1, r.2.disk.isSome)) =
      some (false, true) := by
  rfl

/-- C10 counterexample: fs_read can terminate normally at offset > size:
reading 1 byte at offset 6 from the size-5 inode wraps the clamp, copies a
stale byte from the tail of the data block, passes the final assert, and
returns 1. -/
theorem read_large_offset_normal_counterexample :
    fs_read cfgW fsW10 0 1 6 = ReadResult.ok 1 [306] ∧
      6 > (fsW10.itable.getD 0 defaultInode).size := by
  constructor
  · rfl
  · decide

/-- C10 (amended): the clamp min(length, size - offset) is computed in
size_t arithmetic, so for some inputs with offset > size (here a fresh
size-0 inode read with length 1 at offset 1) the subtraction wraps, no
clamping occurs, and the final assert(bytes_read == length) fails: the
program aborts rather than returning 0 or a short count. -/
theorem read_offset_wrap_abort :
    fs_read cfgW fsW10a 0 1 1 = ReadResult.abort ∧
      1 > (fsW10a.itable.getD 0 defaultInode).size ∧
      min 1 (sub64 (fsW10a.itable.getD 0 defaultInode).size 1) = 1 := by
  refine ⟨rfl, by decide, by decide⟩

/-- C2: in fs_read's indirect loop the source copies
min(BLOCK_SIZE, remaining) bytes from block position offset instead of the
claimed min(BLOCK_SIZE - offset, remaining): reading 12 bytes at offset 10
(block 1, byte 2 of the file, i.e. inside the indirect region) copies a
full block from position 2, overrunning the 8-byte block (stale positions
8 and 9 of block 5 appear) and shifting the rest, while the rule the claim
states yields the true file bytes.  Both runs return 12, so the final
assert hides the divergence. -/
theorem read_indirect_unaligned_bug :
    fs_read cfgW2 fsW2 0 12 10 =
      ReadResult.ok 12 [502, 503, 504, 505, 506, 507, 508, 509, 600, 601, 602, 603] ∧
    fs_readSpec cfgW2 fsW2 0 12 10 =
      ReadResult.ok 12 [502, 503, 504, 505, 506, 507, 600, 601, 602, 603, 604, 605] ∧
    fs_read cfgW2 fsW2 0 12 10 ≠ fs_readSpec cfgW2 fsW2 0 12 10 := by
  refine ⟨rfl, rfl, by decide⟩

/-- C9 counterexample: create() marks a slot valid without clearing its
pointer fields, so removing an inode created on a slot with a stale direct
pointer to a free block fires the double-free assert in
fs_release_free_block: the program aborts instead of remove succeeding. -/
theorem remove_stale_pointer_counterexample :
    (fs_create fsW9).map Prod.fst = some 0 ∧ fs_remove cfgW fsW9c 0 = none := by
  refine ⟨rfl, rfl⟩

/-- C3 counterexample: fs_expand_file called with new_size below the
current size (here size 5, new_size 1) needs no block allocation at all,
yet leaves size = max(size, new_size) = 5 ≠ new_size, refuting "size
equals new_size when all needed blocks were allocated" as universally
stated. -/
theorem expand_shrink_counterexample :
    (fs_expand_file cfgW fsW10 ⟨true, 5, [3, 0], 0⟩ 1).1.size = 5 ∧
      upperRound 1 cfgW.blockSize ≤ upperRound 5 cfgW.blockSize ∧
      (fs_expand_file cfgW fsW10 ⟨true, 5, [3, 0], 0⟩ 1).1.size ≠ 1 := by
  refine ⟨rfl, by decide, by decide⟩

/-! ### Bitmap reconstruction (mount) -/

lemma clearMany_eq : ∀ (l : List Nat) (bm : Nat → Bool) (q : Nat),
    clearMany bm l q = (bm q && !(l.contains q))
  | [], bm, q => by simp [clearMany]
  | b :: l, bm, q => by
    have ih := clearMany_eq l (fun r => if r = b then false else bm r) q
    simp only [clearMany, List.foldl_cons] at ih ⊢
    rw [ih]
    by_cases hq : q = b
    · subst hq; simp
    · simp [hq, Ne.symm hq]

lemma markInode_eq {cfg : Config} {diskB : Nat} {dataF : Nat → Nat → Nat}
    {bm bm' : Nat → Bool} {nd : Inode}
    (h : markInode cfg diskB dataF bm nd = some bm') :
    ∀ q, bm' q = (bm q && !(inodeReaches cfg dataF nd q)) := by
  intro q
  unfold markInode at h
  unfold inodeReaches
  by_cases hv : nd.valid
  · rw [if_pos hv] at h
    rw [hv]
    by_cases hi : nd.indirect != 0
    · rw [if_pos hi] at h
      by_cases hd : nd.indirect < diskB
      · rw [if_pos hd] at h
        cases h
        rw [clearMany_eq]
        rw [clearMany_eq]
        by_cases hq : q = nd.indirect
        · subst hq
          simp [hi, beq_iff_eq]
        · have : (nd.indirect == q) = false := by
            simp [beq_iff_eq]
            exact fun hc => hq hc.symm
          simp [hq, hi, this, Bool.and_assoc]
      · rw [if_neg hd] at h
        exact absurd h (by simp)
    · rw [if_neg hi] at h
      cases h
      rw [clearMany_eq]
      simp only [hi]
      simp
  · rw [if_neg hv] at h
    cases h
    simp [Bool.not_eq_true] at hv
    simp [hv]

lemma markAll_eq {cfg : Config} {diskB : Nat} {dataF : Nat → Nat → Nat} :
    ∀ {l : List Inode} {bm bm' : Nat → Bool},
      markAll cfg diskB dataF bm l = some bm' →
      ∀ q, bm' q = (bm q && !(anyReaches cfg dataF l q))
  | [], bm, bm', h, q => by
    simp only [markAll, Option.some.injEq] at h
    subst h
    simp [anyReaches]
  | nd :: l, bm, bm', h, q => by
    simp only [markAll] at h
    rcases hm : markInode cfg diskB dataF bm nd with _ | bm1
    · rw [hm] at h; exact absurd h (by simp)
    · rw [hm] at h
      have ih := markAll_eq h q
      rw [ih, markInode_eq hm q]
      simp only [anyReaches, List.any_cons]
      by_cases hr : inodeReaches cfg dataF nd q <;> simp [hr, anyReaches]

/-- C5: for every image on which fs_mount succeeds, the reconstructed
bitmap marks block 0 and blocks 1..inode_blocks not-free, and a block of
the data region (inode_blocks, blocks) is free exactly when no valid inode
reaches it via a direct pointer, as the indirect index block, or via an
entry of the indirect index block. -/
theorem bitmap_reconstruction (cfg : Config) (ms ms' : MountState) (d : DiskM)
    (bm : Nat → Bool)
    (h : fs_mount cfg ms (some d) = some (true, ms'))
    (hbm : ms'.free = some bm) :
    (∀ b, b ≤ d.super.inodeBlocks → bm b = false) ∧
    (∀ b, d.super.inodeBlocks < b → b < d.super.blocks →
      (bm b = true ↔ anyReaches cfg d.dataF d.itable b = false)) := by
  simp only [fs_mount] at h
  by_cases hnone : ms.disk.isNone
  · rw [if_pos hnone] at h
    by_cases hz : d.nblocks = 0
    · rw [if_pos hz] at h; exact absurd h (by simp)
    rw [if_neg hz] at h
    by_cases hmagic : d.super.magic ≠ MAGIC_NUMBER
    · rw [if_pos hmagic] at h; exact absurd h (by simp)
    rw [if_neg hmagic] at h
    by_cases hinodes : d.super.inodeBlocks * cfg.inodesPerBlock ≠ d.super.inodes
    · rw [if_pos hinodes] at h; exact absurd h (by simp)
    rw [if_neg hinodes] at h
    by_cases hib : d.super.inodeBlocks ≠ (d.super.blocks + 9) / 10
    · rw [if_pos hib] at h; exact absurd h (by simp)
    rw [if_neg hib] at h
    rcases hbuild : fs_build_free_block_bitmap cfg d.super.inodeBlocks d.super.blocks
        d.nblocks d.itable d.dataF with _ | bm0
    · rw [hbuild] at h; simp at h
    rw [hbuild] at h
    simp only [Option.some.injEq, Prod.mk.injEq] at h
    have hms : ms'.free = some bm0 := by rw [← h.2]
    rw [hms] at hbm
    simp only [Option.some.injEq] at hbm
    subst hbm
    unfold fs_build_free_block_bitmap at hbuild
    by_cases habort : d.super.inodeBlocks ≠ 0 ∧ d.nblocks ≤ d.super.inodeBlocks
    · rw [if_pos habort] at hbuild; exact absurd hbuild (by simp)
    rw [if_neg habort] at hbuild
    have hall := markAll_eq hbuild
    constructor
    · intro b hb
      rw [hall b]
      simp [hb]
    · intro b hb1 hb2
      rw [hall b]
      have hb1' : ¬ b ≤ d.super.inodeBlocks := by omega
      simp only [if_neg hb1', if_pos hb2]
      constructor
      · intro hh
        rcases hr : anyReaches cfg d.dataF d.itable b with _ | _
        · rfl
        · rw [hr] at hh; simp at hh
      · intro hh
        rw [hh]
        simp
  · rw [if_neg hnone] at h
    exact absurd h (by simp)

/-- C5 witness: after mounting dW5, block 1 (inode table) is not-free, the
referenced data block 3 is not-free, and the unreferenced data block 4 is
free. -/
theorem bitmap_reconstruction_witness :
    bmW5 1 = false ∧ bmW5 3 = false ∧ bmW5 4 = true := by
  have h := bitmap_reconstruction cfgW msW5 msW5r dW5 bmW5 (by rfl) (by rfl)
  refine ⟨h.1 1 (by decide), ?_, ?_⟩
  · have h3 := h.2 3 (by decide) (by decide)
    have hr : anyReaches cfgW dW5.dataF dW5.itable 3 = true := by decide
    rcases hb : bmW5 3 with _ | _
    · rfl
    · rw [h3.1 hb] at hr; exact absurd hr (by simp)
  · have h4 := h.2 4 (by decide) (by decide)
    exact h4.2 (by decide)

/-! ### Format -/

lemma getD_mapIdx {α : Type} (l : List α) (f : Nat → α → α) (j : Nat) (d : α) :
    (l.mapIdx f).getD j d = if h : j < l.length then f j (l.get ⟨j, h⟩) else d := by
  by_cases h : j < l.length
  · rw [dif_pos h]
    have h' : j < (l.mapIdx f).length := by
      simp [List.length_mapIdx]
      exact h
    rw [List.getD_eq_getElem _ _ h']
    simp
  · rw [dif_neg h]
    have h' : l.length ≤ j := by omega
    simp [List.getD_eq_getElem?_getD, List.getElem?_eq_none h']

lemma formatClear_frame (cfg : Config) :
    ∀ (fuel i : Nat) (d : DiskM) (ws : List Bool),
      (formatClear cfg i fuel d ws).1.nblocks = d.nblocks ∧
      (formatClear cfg i fuel d ws).1.super = d.super ∧
      (formatClear cfg i fuel d ws).1.dataF = d.dataF
  | 0, i, d, ws => ⟨rfl, rfl, rfl⟩
  | fuel + 1, i, d, ws => by
    rw [formatClear]
    by_cases hi : i + 1 < d.nblocks
    · rw [if_pos hi]
      exact formatClear_frame cfg fuel (i + 1) _ _
    · rw [if_neg hi]
      exact ⟨rfl, rfl, rfl⟩

lemma formatClear_writes (cfg : Config) :
    ∀ (fuel i : Nat) (d : DiskM) (ws : List Bool),
      ∃ t, (formatClear cfg i fuel d ws).2.1 = ws ++ t ∧
        t.all id = (formatClear cfg i fuel d ws).2.2
  | 0, i, d, ws => ⟨[], by simp [formatClear], rfl⟩
  | fuel + 1, i, d, ws => by
    rw [formatClear]
    by_cases hi : i + 1 < d.nblocks
    · rw [if_pos hi]
      obtain ⟨t, ht1, ht2⟩ := formatClear_writes cfg fuel (i + 1)
        { d with itable := d.itable.mapIdx (fun j nd =>
            if i * cfg.inodesPerBlock ≤ j ∧ j < (i + 1) * cfg.inodesPerBlock then
              zeroInode cfg else nd) } (ws ++ [true])
      exact ⟨true :: t, by simpa using ht1, by simpa using ht2⟩
    · rw [if_neg hi]
      exact ⟨[false], rfl, by simp⟩

lemma formatClear_ok (cfg : Config) :
    ∀ (fuel i : Nat) (d : DiskM) (ws : List Bool),
      ((formatClear cfg i fuel d ws).2.2 = true ↔ (fuel = 0 ∨ i + fuel < d.nblocks))
  | 0, i, d, ws => by simp [formatClear]
  | fuel + 1, i, d, ws => by
    rw [formatClear]
    by_cases hi : i + 1 < d.nblocks
    · rw [if_pos hi]
      have ih := formatClear_ok cfg fuel (i + 1)
        { d with itable := d.itable.mapIdx (fun j nd =>
            if i * cfg.inodesPerBlock ≤ j ∧ j < (i + 1) * cfg.inodesPerBlock then
              zeroInode cfg else nd) } (ws ++ [true])
      simp only at ih
      rw [ih]
      omega
    · rw [if_neg hi]
      simp
      omega

lemma formatClear_preserve (cfg : Config) :
    ∀ (fuel i : Nat) (d : DiskM) (ws : List Bool) (j : Nat),
      j < i * cfg.inodesPerBlock →
      (formatClear cfg i fuel d ws).1.itable.getD j defaultInode =
        d.itable.getD j defaultInode
  | 0, i, d, ws, j, hj => rfl
  | fuel + 1, i, d, ws, j, hj => by
    rw [formatClear]
    by_cases hi : i + 1 < d.nblocks
    · rw [if_pos hi]
      rw [formatClear_preserve cfg fuel (i + 1) _ _ j (by
        have : i * cfg.inodesPerBlock ≤ (i + 1) * cfg.inodesPerBlock :=
          Nat.mul_le_mul_right _ (by omega)
        omega)]
      rw [getD_mapIdx]
      by_cases hlen : j < d.itable.length
      · rw [dif_pos hlen]
        rw [if_neg (by omega)]
        rw [List.getD_eq_getElem _ _ hlen]
        rfl
      · rw [dif_neg hlen]
        rw [List.getD_eq_getElem?_getD, List.getElem?_eq_none (by omega)]
        rfl
    · rw [if_neg hi]

lemma formatClear_clears (cfg : Config) :
    ∀ (fuel i : Nat) (d : DiskM) (ws : List Bool),
      (formatClear cfg i fuel d ws).2.2 = true →
      ∀ j, i * cfg.inodesPerBlock ≤ j → j < (i + fuel) * cfg.inodesPerBlock →
        ((formatClear cfg i fuel d ws).1.itable.getD j defaultInode).valid = false
  | 0, i, d, ws, _, j, hj1, hj2 => by simp at hj2; omega
  | fuel + 1, i, d, ws, hok, j, hj1, hj2 => by
    rw [formatClear] at hok ⊢
    by_cases hi : i + 1 < d.nblocks
    · rw [if_pos hi] at hok ⊢
      by_cases hcur : j < (i + 1) * cfg.inodesPerBlock
      · rw [formatClear_preserve cfg fuel (i + 1) _ _ j hcur]
        rw [getD_mapIdx]
        by_cases hlen : j < d.itable.length
        · rw [dif_pos hlen, if_pos ⟨hj1, hcur⟩]
          rfl
        · rw [dif_neg hlen]
          rfl
      · exact formatClear_clears cfg fuel (i + 1) _ _ hok j (by omega)
          (by have : (i + 1 + fuel) = (i + (fuel + 1)) := by omega
              rw [this]; exact hj2)
    · rw [if_neg hi] at hok
      simp at hok

/-- C7 (amended): fs_format fails on a FileSystem that already has a disk
attached; otherwise it returns success iff the initial superblock read
succeeds (the emulator fails it exactly on an empty disk) AND every block
write it performs succeeds; and on success block 0 holds
{magic_number = MAGIC_NUMBER, blocks = disk.blocks,
inode_blocks = ceil(blocks / 10), inodes = inode_blocks * INODES_PER_BLOCK}
and every inode slot of the table is invalid. -/
theorem format_success_amended (cfg : Config) (d : DiskM) :
    (fs_format_instr cfg true d = some (false, d, [])) ∧
    (∀ ok d' ws, fs_format_instr cfg false d = some (ok, d', ws) →
      ((ok = true ↔ (0 < d.nblocks ∧ ws.all id = true)) ∧
       (ok = true →
         d'.super = ⟨MAGIC_NUMBER, d.nblocks, (d.nblocks + 9) / 10,
           ((d.nblocks + 9) / 10) * cfg.inodesPerBlock⟩ ∧
         ∀ j, j < ((d.nblocks + 9) / 10) * cfg.inodesPerBlock →
           (d'.itable.getD j defaultInode).valid = false))) := by
  constructor
  · simp [fs_format_instr]
  · intro ok d' ws h
    simp only [fs_format_instr, if_neg Bool.false_ne_true] at h
    by_cases hz : d.nblocks = 0
    · rw [if_pos hz] at h
      simp only [Option.some.injEq, Prod.mk.injEq] at h
      obtain ⟨hok, _, hws⟩ := h
      subst hok
      subst hws
      constructor
      · simp
        omega
      · intro hcon
        exact absurd hcon (by simp)
    · rw [if_neg hz] at h
      obtain ⟨hnb, hsuper, _⟩ := formatClear_frame cfg ((d.nblocks + 9) / 10) 0 d []
      obtain ⟨t, ht1, ht2⟩ := formatClear_writes cfg ((d.nblocks + 9) / 10) 0 d []
      rcases hclear : formatClear cfg 0 ((d.nblocks + 9) / 10) d [] with ⟨d1, ws1, ok1⟩
      rw [hclear] at h hnb hsuper ht1 ht2
      simp only at h hnb hsuper ht1 ht2
      by_cases hok1 : ok1 = true
      · rw [if_pos hok1] at h
        rw [if_pos (by rw [hnb]; omega)] at h
        simp only [Option.some.injEq, Prod.mk.injEq] at h
        obtain ⟨hok, hd', hws⟩ := h
        subst hok
        subst hws
        constructor
        · constructor
          · intro _
            refine ⟨by omega, ?_⟩
            rw [ht1]
            simp only [List.nil_append]
            rw [List.all_append]
            rw [ht2, hok1]
            simp
          · intro _
            rfl
        · intro _
          constructor
          · rw [← hd']
            rw [hnb]
          · intro j hj
            rw [← hd']
            simp only
            have := formatClear_clears cfg ((d.nblocks + 9) / 10) 0 d [] (by rw [hclear]; exact hok1) j (by omega)
              (by simpa using hj)
            rw [hclear] at this
            exact this
      · rw [if_neg hok1] at h
        simp only [Option.some.injEq, Prod.mk.injEq] at h
        obtain ⟨hok, _, hws⟩ := h
        subst hok
        subst hws
        constructor
        · constructor
          · intro hcon; exact absurd hcon (by simp)
          · intro hcon
            rw [ht1] at hcon
            simp only [List.nil_append] at hcon
            rw [ht2] at hcon
            exact absurd hcon.2 hok1
        · intro hcon; exact absurd hcon (by simp)

/-- C7 counterexample: on a 0-block disk that is not mounted, fs_format
performs no block write at all (the initial superblock READ fails and the
function returns false first), so every performed write vacuously
succeeded, yet fs_format returns failure — refuting "success iff every
performed block write succeeds" as stated. -/
theorem format_read_failure_counterexample :
    (fs_format_instr cfgW false dW7).map (fun r => (r.1, r.2.2)) = some (false, []) ∧
      (([] : List Bool).all id = true) :=
  ⟨rfl, rfl⟩

/-- C7 witness: formatting the 10-block image dW5 succeeds, the superblock
receives {MAGIC_NUMBER, 10, 1, 4}, and the previously valid slot 0 is
invalid afterwards. -/
theorem format_success_amended_witness :
    dW7r.1.super = ⟨MAGIC_NUMBER, 10, 1, 4⟩ ∧
      (dW7r.1.itable.getD 0 defaultInode).valid = false ∧
      (0 < dW5.nblocks ∧ dW7r.2.all id = true) := by
  have h := (format_success_amended cfgW dW5).2 true dW7r.1 dW7r.2 (by rfl)
  have h2 := h.2 rfl
  refine ⟨h2.1, h2.2 0 (by decide), h.1.1 rfl⟩

/-! ### Create / remove / stat -/

lemma getD_set_self {α : Type} (l : List α) (n : Nat) (a d : α) (h : n < l.length) :
    (l.set n a).getD n d = a := by
  rw [List.getD_eq_getElem _ _ (by simpa using h)]
  simp [List.getElem_set_self]

lemma getD_set_ne {α : Type} (l : List α) (m n : Nat) (a d : α) (h : m ≠ n) :
    (l.set m a).getD n d = l.getD n d := by
  simp [List.getD_eq_getElem?_getD, List.getElem?_set_ne h]

lemma findIdx?_some {α : Type} (d : α) :
    ∀ (l : List α) (p : α → Bool) (i n : Nat),
      l.findIdx? p i = some n → i ≤ n ∧ n - i < l.length ∧ p (l.getD (n - i) d) = true
  | [], p, i, n, h => by simp at h
  | x :: xs, p, i, n, h => by
    rw [List.findIdx?_cons] at h
    by_cases hp : p x
    · rw [if_pos hp] at h
      cases h
      simp [hp]
    · rw [if_neg hp] at h
      obtain ⟨h1, h2, h3⟩ := findIdx?_some d xs p (i + 1) n h
      refine ⟨by omega, by simp; omega, ?_⟩
      have hn : n - i = (n - (i + 1)) + 1 := by omega
      rw [hn]
      simpa using h3

/-- fs_create success: the returned slot index is in range, its slot was
invalid, and the new state only sets that slot's valid flag. -/
lemma create_some {fs : FS} {n : Nat} {fs1 : FS}
    (h : fs_create fs = some (n, fs1)) :
    n < fs.itable.length ∧ (fs.itable.getD n defaultInode).valid = false ∧
      fs1 = { fs with itable := fs.itable.set n { fs.itable.getD n defaultInode with valid := true } } := by
  unfold fs_create at h
  rcases hidx : fs.itable.findIdx? (fun nd => !nd.valid) with _ | k
  · rw [hidx] at h; exact absurd h (by simp)
  · rw [hidx] at h
    simp only [Option.some.injEq, Prod.mk.injEq] at h
    obtain ⟨hn, hfs⟩ := h
    rw [hn] at hidx hfs
    obtain ⟨_, hlt, hp⟩ := findIdx?_some defaultInode fs.itable (fun nd => !nd.valid) 0 n hidx
    simp only [Nat.sub_zero] at hlt hp
    simp only [Bool.not_eq_true'] at hp
    exact ⟨hlt, hp, hfs.symm⟩

lemma zeroTermList_of_all_zero {l : List Nat} (h : l.all (fun p => p == 0) = true)
    (k : Nat) : zeroTermList (l.take k) = [] := by
  cases l with
  | nil => simp [zeroTermList]
  | cons x xs =>
    cases k with
    | zero => simp [zeroTermList]
    | succ k =>
      simp only [List.all_cons, Bool.and_eq_true, beq_iff_eq] at h
      simp [zeroTermList, List.take, h.1]

/-- C9 (amended): for every inode number n obtained from a successful
create whose slot carried no stale pointers (all direct pointers zero and
indirect zero, as format and remove leave the slots), remove(n) succeeds
and a subsequent stat(n) returns the failure sentinel.  (Without the
stale-pointer proviso the claim fails: create does not clear the slot, and
remove of a slot with a stale pointer to a free block aborts on the
double-free assert.) -/
theorem create_remove_stat_amended (cfg : Config) (fs : FS) (n : Nat) (fs1 : FS)
    (hc : fs_create fs = some (n, fs1))
    (hclean : (fs.itable.getD n defaultInode).direct.all (fun p => p == 0) = true ∧
      (fs.itable.getD n defaultInode).indirect = 0) :
    (fs_remove cfg fs1 n).map Prod.fst = some true ∧
      (fs_remove cfg fs1 n).map (fun r => fs_stat r.2 n) = some none := by
  obtain ⟨hlt, hinv, hfs1⟩ := create_some hc
  have hslot : fs1.itable.getD n defaultInode =
      { fs.itable.getD n defaultInode with valid := true } := by
    rw [hfs1]
    exact getD_set_self _ _ _ _ hlt
  have hload : fs_load_inode fs1 n =
      some { fs.itable.getD n defaultInode with valid := true } := by
    unfold fs_load_inode
    rw [hslot]
    rfl
  have hzt : zeroTermList (({ fs.itable.getD n defaultInode with valid := true } : Inode).direct.take
      cfg.pointersPerInode) = [] := zeroTermList_of_all_zero hclean.1 _
  have hremove : fs_remove cfg fs1 n = some (true, fs_save_inode fs1 n (zeroInode cfg)) := by
    unfold fs_remove
    rw [hload]
    simp only [hzt, releaseAll]
    rw [if_neg (by simpa using hclean.2)]
  rw [hremove]
  refine ⟨rfl, ?_⟩
  simp only [Option.map_some']
  have hstat : fs_stat (fs_save_inode fs1 n (zeroInode cfg)) n = none := by
    unfold fs_stat fs_load_inode
    have hlen : n < fs1.itable.length := by
      rw [hfs1]
      simpa using hlt
    rw [show (fs_save_inode fs1 n (zeroInode cfg)).itable = fs1.itable.set n (zeroInode cfg) from rfl]
    rw [getD_set_self _ _ _ _ hlen]
    simp [zeroInode]
  rw [hstat]

/-- C9 witness: create on the clean image hands out slot 0; removing it
succeeds and stat then fails. -/
theorem create_remove_stat_amended_witness :
    (fs_remove cfgW fsW9bc 0).map Prod.fst = some true ∧
      (fs_remove cfgW fsW9bc 0).map (fun r => fs_stat r.2 0) = some none :=
  create_remove_stat_amended cfgW fsW9b 0 fsW9bc (by rfl) (by decide)

/-! ### List helpers for the allocation and copy loops -/

lemma setMany_length : ∀ (bs l : List Nat) (i : Nat),
    (setMany l i bs).length = l.length
  | [], l, i => rfl
  | b :: bs, l, i => by
    rw [setMany, setMany_length bs]
    simp

lemma getD_setMany : ∀ (bs l : List Nat) (i j : Nat),
    (setMany l i bs).getD j 0 =
      if i ≤ j ∧ j < i + bs.length ∧ j < l.length then bs.getD (j - i) 0
      else l.getD j 0
  | [], l, i, j => by
    rw [show setMany l i [] = l from rfl]
    rw [if_neg (by simp; omega)]
  | b :: bs, l, i, j => by
    rw [show setMany l i (b :: bs) = setMany (l.set i b) (i + 1) bs from rfl]
    rw [getD_setMany bs]
    simp only [List.length_set, List.length_cons]
    by_cases hj : j = i
    · subst hj
      rw [if_neg (by omega)]
      by_cases hlen : j < l.length
      · rw [if_pos ⟨le_refl _, by omega, hlen⟩]
        simp only [Nat.sub_self]
        rw [getD_set_self _ _ _ _ hlen]
        rfl
      · rw [if_neg (by omega)]
        rw [List.set_eq_of_length_le (by omega)]
    · rw [getD_set_ne _ _ _ _ _ (fun hc => hj hc.symm)]
      by_cases hcond : i + 1 ≤ j ∧ j < i + 1 + bs.length ∧ j < l.length
      · rw [if_pos hcond, if_pos (by omega)]
        have hsub : j - i = (j - (i + 1)) + 1 := by omega
        rw [hsub]
        rfl
      · rw [if_neg hcond, if_neg (by omega)]

/-- setMany on a zero-filled array yields bs followed by zero padding. -/
lemma setMany_replicate {bs : List Nat} {m : Nat} (h : bs.length ≤ m) :
    setMany (List.replicate m 0) 0 bs = bs ++ List.replicate (m - bs.length) 0 := by
  apply List.ext_getElem
  · rw [setMany_length]
    simp
    omega
  · intro j h1 h2
    have hm : j < m := by simpa [setMany_length] using h1
    have hset := getD_setMany bs (List.replicate m 0) 0 j
    rw [List.getD_eq_getElem _ _ h1] at hset
    simp only [Nat.zero_add, Nat.zero_le, true_and, List.length_replicate, Nat.sub_zero] at hset
    rw [hset]
    by_cases hj : j < bs.length
    · rw [if_pos ⟨hj, hm⟩]
      rw [List.getD_eq_getElem _ _ (by simpa using hj)]
      rw [List.getElem_append_left (by simpa using hj)]
    · rw [if_neg (by omega)]
      rw [List.getD_eq_getElem _ _ (by simpa using hm)]
      rw [List.getElem_replicate]
      rw [List.getElem_append_right (by simpa using hj)]
      simp

lemma zeroTermList_append_zeros : ∀ {bs : List Nat}, (∀ b ∈ bs, b ≠ 0) →
    ∀ (r : Nat), zeroTermList (bs ++ List.replicate r 0) = bs
  | [], _, r => by
    cases r with
    | zero => rfl
    | succ r => simp [zeroTermList, List.replicate_succ]
  | b :: bs, h, r => by
    have hb : b ≠ 0 := h b (by simp)
    have ih := zeroTermList_append_zeros (fun x hx => h x (List.mem_cons_of_mem b hx)) r
    simp only [zeroTermList] at ih ⊢
    rw [List.cons_append, List.takeWhile_cons]
    rw [show (b != 0) = true by simpa using hb]
    simp only [if_true]
    rw [ih]

/-- Length of a zero-terminated scan of a list whose nonzero entries are
exactly the first A positions. -/
lemma zeroTermList_length : ∀ (l : List Nat) (A : Nat), A ≤ l.length →
    (∀ j, j < l.length → (l.getD j 0 ≠ 0 ↔ j < A)) →
    (zeroTermList l).length = A
  | [], A, hA, _ => by
    have hz : A = 0 := Nat.le_zero.1 (by simpa using hA)
    simp [zeroTermList, hz]
  | x :: xs, A, hA, hiff => by
    cases A with
    | zero =>
      have hx : ¬ x ≠ 0 := by
        intro hc
        exact absurd ((hiff 0 (by simp)).1 hc) (by omega)
      simp only [ne_eq, not_not] at hx
      simp [zeroTermList, hx]
    | succ A =>
      have hx : x ≠ 0 := (hiff 0 (by simp)).2 (by omega)
      have ih := zeroTermList_length xs A (by simpa using hA) (by
        intro j hj
        have := hiff (j + 1) (by simpa using hj)
        simpa using this)
      simp only [zeroTermList] at ih ⊢
      rw [List.takeWhile_cons]
      rw [show (x != 0) = true by simpa using hx]
      simpa using ih

/-! ### countFreeData lemmas -/

lemma countFree_mem {fs : FS} {b : Nat} (h1 : fs.inodeBlocks + 1 ≤ b)
    (h2 : b < fs.diskBlocks) (h3 : fs.free b = true) : 1 ≤ countFreeData fs := by
  unfold countFreeData
  have hp : 0 < (List.range fs.diskBlocks).countP
      (fun c => decide (fs.inodeBlocks + 1 ≤ c) && fs.free c) := by
    rw [List.countP_pos_iff]
    exact ⟨b, by simpa using h2, by simp [h1, h3]⟩
  omega

lemma countFree_alloc {fs : FS} {b : Nat}
    (h : (fs_allocate_free_block fs).1 = some b) :
    countFreeData ((fs_allocate_free_block fs).2) = countFreeData fs - 1 ∧
      1 ≤ countFreeData fs := by
  obtain ⟨h1, h2, h3, _, _, h6⟩ := alloc_some h
  have hpos := countFree_mem h1 h2 h3
  refine ⟨?_, hpos⟩
  rw [h6]
  unfold countFreeData
  simp only
  have hsplit : ∀ (l : List Nat), l.Nodup →
      l.countP (fun c => decide (fs.inodeBlocks + 1 ≤ c) && fs.free c) =
      l.countP (fun c => decide (fs.inodeBlocks + 1 ≤ c) &&
        (if c = b then false else fs.free c)) +
        (if b ∈ l then 1 else 0) := by
    intro l
    induction l with
    | nil => simp
    | cons x xs ih =>
      intro hnd
      have hxs := ih (List.Nodup.of_cons hnd)
      rw [List.countP_cons, List.countP_cons, hxs]
      by_cases hx : x = b
      · subst hx
        have hnotin : x ∉ xs := (List.nodup_cons.1 hnd).1
        have hq : (decide (fs.inodeBlocks + 1 ≤ x) &&
            (if x = x then false else fs.free x)) = false := by
          simp
        have hp : (decide (fs.inodeBlocks + 1 ≤ x) && fs.free x) = true := by
          simp [h1, h3]
        rw [hq, hp]
        simp [hnotin]
      · have hq : (decide (fs.inodeBlocks + 1 ≤ x) &&
            (if x = b then false else fs.free x)) =
            (decide (fs.inodeBlocks + 1 ≤ x) && fs.free x) := by
          rw [if_neg hx]
        rw [hq]
        have hite : (if b ∈ x :: xs then (1 : Nat) else 0) = (if b ∈ xs then 1 else 0) := by
          by_cases hm : b ∈ xs
          · rw [if_pos (List.mem_cons_of_mem x hm), if_pos hm]
          · rw [if_neg ?_, if_neg hm]
            simp only [List.mem_cons, not_or]
            exact ⟨fun hc => hx hc.symm, hm⟩
        rw [hite]
        omega
  have hmain := hsplit (List.range fs.diskBlocks) (List.nodup_range _)
  rw [if_pos (List.mem_range.2 h2)] at hmain
  omega

lemma alloc_some_of_countFree (fs : FS) (h : 1 ≤ countFreeData fs) :
    ∃ b, (fs_allocate_free_block fs).1 = some b := by
  rcases halloc : (fs_allocate_free_block fs).1 with _ | b
  · exfalso
    have hall := (alloc_none halloc).1
    unfold countFreeData at h
    rw [Nat.succ_le_iff, List.countP_pos_iff] at h
    obtain ⟨c, hc1, hc2⟩ := h
    simp only [Bool.and_eq_true, decide_eq_true_eq] at hc2
    rw [hall c hc2.1 (List.mem_range.1 hc1)] at hc2
    exact absurd hc2.2 (by simp)
  · exact ⟨b, rfl⟩

/-! ### Allocation loops of fs_expand_file -/

lemma allocLoopDirect_spec (cfg : Config) :
    ∀ (dif : Nat) (direct : List Nat) (idx : Nat) (fs : FS),
      ∃ bs : List Nat,
        bs.length = min dif (min (cfg.pointersPerInode - idx) (countFreeData fs)) ∧
        bs.Nodup ∧
        (∀ b ∈ bs, fs.inodeBlocks + 1 ≤ b ∧ b < fs.diskBlocks ∧ fs.free b = true) ∧
        allocLoopDirect cfg dif direct idx fs =
          (setMany direct idx bs, idx + bs.length, dif - bs.length,
            { fs with free := clearMany fs.free bs }) ∧
        countFreeData { fs with free := clearMany fs.free bs } =
          countFreeData fs - bs.length
  | 0, direct, idx, fs => ⟨[], by simp, List.nodup_nil, by simp, rfl, rfl⟩
  | dif + 1, direct, idx, fs => by
    by_cases hidx : idx < cfg.pointersPerInode
    · rcases halloc : (fs_allocate_free_block fs).1 with _ | b
      · -- allocation failed: the data region is exhausted
        have heq : fs_allocate_free_block fs = (none, fs) :=
          Prod.ext halloc (alloc_none halloc).2
        have hcf : countFreeData fs = 0 := by
          by_contra hc
          obtain ⟨b, hb⟩ := alloc_some_of_countFree fs (by omega)
          rw [halloc] at hb
          exact absurd hb (by simp)
        refine ⟨[], by simp [hcf], List.nodup_nil, by simp, ?_, rfl⟩
        simp only [allocLoopDirect]
        rw [if_pos hidx, heq]
        rfl
      · obtain ⟨hb1, hb2, hb3, _, _, h6⟩ := alloc_some halloc
        have heq : fs_allocate_free_block fs =
            (some b, { fs with free := fun q => if q = b then false else fs.free q }) :=
          Prod.ext halloc h6
        have hcf := countFree_alloc halloc
        rw [h6] at hcf
        obtain ⟨bs', hlen', hnd', hprops', heq', hcfeq'⟩ := allocLoopDirect_spec cfg dif
          (direct.set idx b) (idx + 1)
          { fs with free := fun q => if q = b then false else fs.free q }
        have hnotb : b ∉ bs' := by
          intro hc
          have hfree : (if b = b then false else fs.free b) = true := (hprops' b hc).2.2
          rw [if_pos rfl] at hfree
          exact absurd hfree (by simp)
        refine ⟨b :: bs', ?_, List.nodup_cons.2 ⟨hnotb, hnd'⟩, ?_, ?_, ?_⟩
        · simp only [List.length_cons]
          rw [hlen', hcf.1]
          have hcfpos := hcf.2
          omega
        · intro b' hb'
          rcases List.mem_cons.1 hb' with hb' | hb'
          · subst hb'
            exact ⟨hb1, hb2, hb3⟩
          · obtain ⟨hp1, hp2, hp3⟩ := hprops' b' hb'
            have hp1' : fs.inodeBlocks + 1 ≤ b' := hp1
            have hp2' : b' < fs.diskBlocks := hp2
            have hp3' : (if b' = b then false else fs.free b') = true := hp3
            refine ⟨hp1', hp2', ?_⟩
            by_cases hbb : b' = b
            · rw [if_pos hbb] at hp3'
              exact absurd hp3' (by simp)
            · rw [if_neg hbb] at hp3'
              exact hp3'
        · have hstep : allocLoopDirect cfg (dif + 1) direct idx fs =
              allocLoopDirect cfg dif (direct.set idx b) (idx + 1)
                { fs with free := fun q => if q = b then false else fs.free q } := by
            simp only [allocLoopDirect]
            rw [if_pos hidx, heq]
          rw [hstep, heq']
          have ha : idx + 1 + bs'.length = idx + (b :: bs').length := by
            simp only [List.length_cons]
            omega
          have hd : dif - bs'.length = (dif + 1) - (b :: bs').length := by
            simp only [List.length_cons]
            omega
          rw [ha, hd]
          rfl
        · have hcfstep := hcf.1
          have hcfpos := hcf.2
          simp only [List.length_cons]
          have hcfeq2 : countFreeData { fs with free := clearMany fs.free (b :: bs') } =
              countFreeData { fs with free := fun q => if q = b then false else fs.free q } -
                bs'.length := hcfeq'
          rw [hcfeq2, hcfstep]
          omega
    · refine ⟨[], by simp; omega, List.nodup_nil, by simp, ?_, rfl⟩
      simp only [allocLoopDirect]
      rw [if_neg hidx]
      rfl

lemma allocLoopPtrs_spec (cfg : Config) :
    ∀ (dif : Nat) (ptrs : List Nat) (j : Nat) (fs : FS),
      ∃ bs : List Nat,
        bs.length = min dif (min (cfg.pointersPerBlock - j) (countFreeData fs)) ∧
        bs.Nodup ∧
        (∀ b ∈ bs, fs.inodeBlocks + 1 ≤ b ∧ b < fs.diskBlocks ∧ fs.free b = true) ∧
        allocLoopPtrs cfg dif ptrs j fs =
          (setMany ptrs j bs, j + bs.length, dif - bs.length,
            { fs with free := clearMany fs.free bs }) ∧
        countFreeData { fs with free := clearMany fs.free bs } =
          countFreeData fs - bs.length
  | 0, ptrs, j, fs => ⟨[], by simp, List.nodup_nil, by simp, rfl, rfl⟩
  | dif + 1, ptrs, j, fs => by
    by_cases hidx : j < cfg.pointersPerBlock
    · rcases halloc : (fs_allocate_free_block fs).1 with _ | b
      · have heq : fs_allocate_free_block fs = (none, fs) :=
          Prod.ext halloc (alloc_none halloc).2
        have hcf : countFreeData fs = 0 := by
          by_contra hc
          obtain ⟨b, hb⟩ := alloc_some_of_countFree fs (by omega)
          rw [halloc] at hb
          exact absurd hb (by simp)
        refine ⟨[], by simp [hcf], List.nodup_nil, by simp, ?_, rfl⟩
        simp only [allocLoopPtrs]
        rw [if_pos hidx, heq]
        rfl
      · obtain ⟨hb1, hb2, hb3, _, _, h6⟩ := alloc_some halloc
        have heq : fs_allocate_free_block fs =
            (some b, { fs with free := fun q => if q = b then false else fs.free q }) :=
          Prod.ext halloc h6
        have hcf := countFree_alloc halloc
        rw [h6] at hcf
        obtain ⟨bs', hlen', hnd', hprops', heq', hcfeq'⟩ := allocLoopPtrs_spec cfg dif
          (ptrs.set j b) (j + 1)
          { fs with free := fun q => if q = b then false else fs.free q }
        have hnotb : b ∉ bs' := by
          intro hc
          have hfree : (if b = b then false else fs.free b) = true := (hprops' b hc).2.2
          rw [if_pos rfl] at hfree
          exact absurd hfree (by simp)
        refine ⟨b :: bs', ?_, List.nodup_cons.2 ⟨hnotb, hnd'⟩, ?_, ?_, ?_⟩
        · simp only [List.length_cons]
          rw [hlen', hcf.1]
          have hcfpos := hcf.2
          omega
        · intro b' hb'
          rcases List.mem_cons.1 hb' with hb' | hb'
          · subst hb'
            exact ⟨hb1, hb2, hb3⟩
          · obtain ⟨hp1, hp2, hp3⟩ := hprops' b' hb'
            have hp1' : fs.inodeBlocks + 1 ≤ b' := hp1
            have hp2' : b' < fs.diskBlocks := hp2
            have hp3' : (if b' = b then false else fs.free b') = true := hp3
            refine ⟨hp1', hp2', ?_⟩
            by_cases hbb : b' = b
            · rw [if_pos hbb] at hp3'
              exact absurd hp3' (by simp)
            · rw [if_neg hbb] at hp3'
              exact hp3'
        · have hstep : allocLoopPtrs cfg (dif + 1) ptrs j fs =
              allocLoopPtrs cfg dif (ptrs.set j b) (j + 1)
                { fs with free := fun q => if q = b then false else fs.free q } := by
            simp only [allocLoopPtrs]
            rw [if_pos hidx, heq]
          rw [hstep, heq']
          have ha : j + 1 + bs'.length = j + (b :: bs').length := by
            simp only [List.length_cons]
            omega
          have hd : dif - bs'.length = (dif + 1) - (b :: bs').length := by
            simp only [List.length_cons]
            omega
          rw [ha, hd]
          rfl
        · have hcfstep := hcf.1
          have hcfpos := hcf.2
          simp only [List.length_cons]
          have hcfeq2 : countFreeData { fs with free := clearMany fs.free (b :: bs') } =
              countFreeData { fs with free := fun q => if q = b then false else fs.free q } -
                bs'.length := hcfeq'
          rw [hcfeq2, hcfstep]
          omega
    · refine ⟨[], by simp; omega, List.nodup_nil, by simp, ?_, rfl⟩
      simp only [allocLoopPtrs]
      rw [if_neg hidx]
      rfl

/-! ### Write-loop lemmas -/

lemma diskWriteData_fields (fs : FS) (b : Nat) (blk : Nat → Nat) :
    (diskWriteData fs b blk).itable = fs.itable ∧
    (diskWriteData fs b blk).free = fs.free ∧
    (diskWriteData fs b blk).diskBlocks = fs.diskBlocks ∧
    (diskWriteData fs b blk).inodeBlocks = fs.inodeBlocks := by
  unfold diskWriteData
  by_cases h : b < fs.diskBlocks
  · rw [if_pos h]
    exact ⟨rfl, rfl, rfl, rfl⟩
  · rw [if_neg h]
    exact ⟨rfl, rfl, rfl, rfl⟩

lemma writeLoop_frame (cfg : Config) (buf : Nat → Nat) (L : Nat) :
    ∀ (ptrs : List Nat) (bw off steps : Nat) (fs : FS),
      (writeLoop cfg buf L ptrs bw off steps fs).2.2.2.itable = fs.itable ∧
      (writeLoop cfg buf L ptrs bw off steps fs).2.2.2.free = fs.free ∧
      (writeLoop cfg buf L ptrs bw off steps fs).2.2.2.diskBlocks = fs.diskBlocks ∧
      (writeLoop cfg buf L ptrs bw off steps fs).2.2.2.inodeBlocks = fs.inodeBlocks
  | [], bw, off, steps, fs => ⟨rfl, rfl, rfl, rfl⟩
  | p :: rest, bw, off, steps, fs => by
    simp only [writeLoop]
    by_cases hc : p ≠ 0 ∧ bw < L
    · rw [if_pos hc]
      have ih := writeLoop_frame cfg buf L rest
        (bw + min (cfg.blockSize - off) (L - bw)) 0 (steps + 1)
        (diskWriteData fs p (overlayBytes (fs.data p) off buf bw
          (min (cfg.blockSize - off) (L - bw))))
      have hw := diskWriteData_fields fs p (overlayBytes (fs.data p) off buf bw
        (min (cfg.blockSize - off) (L - bw)))
      exact ⟨ih.1.trans hw.1, ih.2.1.trans hw.2.1, ih.2.2.1.trans hw.2.2.1,
        ih.2.2.2.trans hw.2.2.2⟩
    · rw [if_neg hc]
      exact ⟨rfl, rfl, rfl, rfl⟩

lemma writeLoop_le (cfg : Config) (buf : Nat → Nat) (L : Nat) :
    ∀ (ptrs : List Nat) (bw off steps : Nat) (fs : FS), bw ≤ L →
      (writeLoop cfg buf L ptrs bw off steps fs).1 ≤ L
  | [], bw, off, steps, fs, h => h
  | p :: rest, bw, off, steps, fs, h => by
    simp only [writeLoop]
    by_cases hc : p ≠ 0 ∧ bw < L
    · rw [if_pos hc]
      exact writeLoop_le cfg buf L rest _ 0 (steps + 1) _ (by
        have : min (cfg.blockSize - off) (L - bw) ≤ L - bw := min_le_right _ _
        omega)
    · rw [if_neg hc]
      exact h

lemma zeroTermList_cons_of_ne {p : Nat} (hp : p ≠ 0) (rest : List Nat) :
    zeroTermList (p :: rest) = p :: zeroTermList rest := by
  simp only [zeroTermList, List.takeWhile_cons]
  rw [show (p != 0) = true by simpa using hp]
  simp

/-- Position bound for the write loop: either it copies nothing, or the
final byte count plus the initial in-block offset stays within the
zero-terminated pointer capacity, and the number of blocks consumed is
bounded by that capacity. -/
lemma writeLoop_bound (cfg : Config) (buf : Nat → Nat) (L : Nat) :
    ∀ (ptrs : List Nat) (bw off steps : Nat) (fs : FS), off ≤ cfg.blockSize →
      ((writeLoop cfg buf L ptrs bw off steps fs).1 = bw ∧
        (writeLoop cfg buf L ptrs bw off steps fs).2.2.1 = steps) ∨
      ((writeLoop cfg buf L ptrs bw off steps fs).1 + off ≤
          bw + (zeroTermList ptrs).length * cfg.blockSize ∧
        (writeLoop cfg buf L ptrs bw off steps fs).2.2.1 ≤
          steps + (zeroTermList ptrs).length)
  | [], bw, off, steps, fs, _ => Or.inl ⟨rfl, rfl⟩
  | p :: rest, bw, off, steps, fs, hoff => by
    simp only [writeLoop]
    by_cases hc : p ≠ 0 ∧ bw < L
    · rw [if_pos hc]
      rw [zeroTermList_cons_of_ne hc.1]
      have hsz : min (cfg.blockSize - off) (L - bw) ≤ cfg.blockSize - off :=
        min_le_left _ _
      rcases writeLoop_bound cfg buf L rest
        (bw + min (cfg.blockSize - off) (L - bw)) 0 (steps + 1)
        (diskWriteData fs p (overlayBytes (fs.data p) off buf bw
          (min (cfg.blockSize - off) (L - bw)))) (Nat.zero_le _) with ⟨h1, h2⟩ | ⟨h1, h2⟩
      · refine Or.inr ?_
        rw [h1, h2]
        simp only [List.length_cons]
        rw [Nat.succ_mul]
        constructor
        · omega
        · omega
      · refine Or.inr ?_
        simp only [List.length_cons]
        rw [Nat.succ_mul]
        constructor
        · omega
        · omega
    · rw [if_neg hc]
      exact Or.inl ⟨rfl, rfl⟩

/-- Full characterization of the write loop over a block-aligned run: the
pointer list is a nonzero block list followed by zero padding, the
starting offset is 0.  The loop copies min(L - bw, capacity) bytes,
read-modify-writes each consumed block with the corresponding window of
the caller's buffer, consumes every block when it runs out of capacity,
and touches nothing else. -/
lemma writeLoop_chunks (cfg : Config) (buf : Nat → Nat) (L : Nat)
    (hBS : 1 ≤ cfg.blockSize) :
    ∀ (bs : List Nat) (r bw steps : Nat) (fs : FS),
      bw ≤ L →
      (∀ b ∈ bs, b ≠ 0 ∧ b < fs.diskBlocks) →
      bs.Nodup →
      ∃ fs' steps',
        writeLoop cfg buf L (bs ++ List.replicate r 0) bw 0 steps fs =
          (min L (bw + bs.length * cfg.blockSize), 0, steps', fs') ∧
        (min L (bw + bs.length * cfg.blockSize) < L → steps' = steps + bs.length) ∧
        fs'.itable = fs.itable ∧ fs'.free = fs.free ∧
        fs'.diskBlocks = fs.diskBlocks ∧ fs'.inodeBlocks = fs.inodeBlocks ∧
        (∀ q, q ∉ bs → fs'.data q = fs.data q) ∧
        (∀ i, (hi : i < bs.length) → L ≤ bw + i * cfg.blockSize →
          fs'.data (bs.get ⟨i, hi⟩) = fs.data (bs.get ⟨i, hi⟩)) ∧
        (∀ i, (hi : i < bs.length) → bw + i * cfg.blockSize < L →
          ∀ t, fs'.data (bs.get ⟨i, hi⟩) t =
            (if t < min cfg.blockSize (L - (bw + i * cfg.blockSize)) then
              buf (bw + i * cfg.blockSize + t)
            else fs.data (bs.get ⟨i, hi⟩) t))
  | [], r, bw, steps, fs, hbw, _, _ => by
    have hstop : writeLoop cfg buf L ([] ++ List.replicate r 0) bw 0 steps fs =
        (bw, 0, steps, fs) := by
      cases r with
      | zero => rfl
      | succ r =>
        simp only [List.nil_append, List.replicate_succ, writeLoop]
        rw [if_neg (by simp)]
    refine ⟨fs, steps, ?_, ?_, rfl, rfl, rfl, rfl, fun q _ => rfl, ?_, ?_⟩
    · rw [hstop]
      simp only [List.length_nil, Nat.zero_mul, Nat.add_zero]
      rw [min_eq_right hbw]
    · intro _
      simp
    · intro i hi
      simp at hi
    · intro i hi
      simp at hi
  | b :: bs', r, bw, steps, fs, hbw, hmem, hnd => by
    have hb := hmem b (List.mem_cons_self b bs')
    by_cases hlt : bw < L
    · have hszle : min (cfg.blockSize - 0) (L - bw) ≤ L - bw := min_le_right _ _
      set sz := min (cfg.blockSize - 0) (L - bw) with hszdef
      have hszpos : 1 ≤ sz := by
        rw [hszdef]
        have : 1 ≤ cfg.blockSize - 0 := by omega
        omega
      set fs1 := diskWriteData fs b (overlayBytes (fs.data b) 0 buf bw sz) with hfs1def
      have hfs1 : fs1 = { fs with data := fun q =>
          if q = b then overlayBytes (fs.data b) 0 buf bw sz else fs.data q } := by
        rw [hfs1def]
        unfold diskWriteData
        rw [if_pos hb.2]
      have hstep : writeLoop cfg buf L ((b :: bs') ++ List.replicate r 0) bw 0 steps fs =
          writeLoop cfg buf L (bs' ++ List.replicate r 0) (bw + sz) 0 (steps + 1) fs1 := by
        simp only [List.cons_append, writeLoop]
        rw [if_pos ⟨hb.1, hlt⟩]
        rfl
      obtain ⟨fs', steps', heq, hsteps, hit, hfr, hdb, hib, huntouched, hskip, hcontent⟩ :=
        writeLoop_chunks cfg buf L hBS bs' r (bw + sz) (steps + 1) fs1 (by omega)
          (by
            intro b' hb'
            have := hmem b' (List.mem_cons_of_mem b hb')
            refine ⟨this.1, ?_⟩
            rw [hfs1]
            exact this.2)
          (List.Nodup.of_cons hnd)
      have hbnotin : b ∉ bs' := (List.nodup_cons.1 hnd).1
      have hdata1b : ∀ t, fs1.data b t = overlayBytes (fs.data b) 0 buf bw sz t := by
        intro t
        rw [hfs1]
        simp
      have hdata1ne : ∀ q, q ≠ b → fs1.data q = fs.data q := by
        intro q hq
        rw [hfs1]
        simp [hq]
      have hfields1 : fs1.itable = fs.itable ∧ fs1.free = fs.free ∧
          fs1.diskBlocks = fs.diskBlocks ∧ fs1.inodeBlocks = fs.inodeBlocks := by
        rw [hfs1]
        exact ⟨rfl, rfl, rfl, rfl⟩
      refine ⟨fs', steps', ?_, ?_, hit.trans hfields1.1, hfr.trans hfields1.2.1,
        hdb.trans hfields1.2.2.1, hib.trans hfields1.2.2.2, ?_, ?_, ?_⟩
      · rw [hstep, heq]
        have harith : min L (bw + sz + bs'.length * cfg.blockSize) =
            min L (bw + (b :: bs').length * cfg.blockSize) := by
          simp only [List.length_cons]
          rw [Nat.succ_mul]
          omega
        rw [harith]
      · intro hfin
        simp only [List.length_cons] at hfin ⊢
        rw [Nat.succ_mul] at hfin
        have hszBS : sz = cfg.blockSize := by
          rw [hszdef]
          omega
        have hrec := hsteps (by omega)
        omega
      · intro q hq
        have hq1 : q ∉ bs' := fun hc => hq (List.mem_cons_of_mem b hc)
        have hq2 : q ≠ b := fun hc => hq (by rw [hc]; exact List.mem_cons_self b bs')
        rw [huntouched q hq1, hdata1ne q hq2]
      · intro i hi hge
        cases i with
        | zero =>
          exfalso
          simp only [Nat.zero_mul, Nat.add_zero] at hge
          omega
        | succ i =>
          have hi' : i < bs'.length := by simpa using hi
          have hge' : L ≤ (bw + sz) + i * cfg.blockSize := by
            rw [Nat.succ_mul] at hge
            rcases Nat.lt_or_ge (L - bw) cfg.blockSize with hcase | hcase
            · have : sz = L - bw := by rw [hszdef]; omega
              omega
            · have : sz = cfg.blockSize := by rw [hszdef]; omega
              omega
          have := hskip i hi' hge'
          rw [show ((b :: bs').get ⟨i + 1, hi⟩) = bs'.get ⟨i, hi'⟩ from rfl]
          rw [this]
          exact hdata1ne _ (fun hc => hbnotin (hc ▸ (bs'.get_mem i hi')))
      · intro i hi hltL t
        cases i with
        | zero =>
          rw [show ((b :: bs').get ⟨0, hi⟩) = b from rfl]
          have hbnot : b ∉ bs' := hbnotin
          rw [huntouched b hbnot, hdata1b t]
          simp only [Nat.zero_mul, Nat.add_zero] at hltL ⊢
          unfold overlayBytes
          by_cases ht : t < sz
          · rw [if_pos ⟨Nat.zero_le t, by omega⟩, if_pos (by rw [hszdef] at ht; omega)]
            simp
          · rw [if_neg (by omega), if_neg (by rw [hszdef] at ht; omega)]
        | succ i =>
          have hi' : i < bs'.length := by simpa using hi
          have hltL2 := hltL
          rw [Nat.succ_mul] at hltL2
          have hszBS : sz = cfg.blockSize := by
            rw [hszdef]
            omega
          have hltL' : (bw + sz) + i * cfg.blockSize < L := by
            omega
          have hcont := hcontent i hi' hltL' t
          rw [show ((b :: bs').get ⟨i + 1, hi⟩) = bs'.get ⟨i, hi'⟩ from rfl]
          rw [hcont]
          have hpos : bw + sz + i * cfg.blockSize = bw + (i + 1) * cfg.blockSize := by
            rw [Nat.succ_mul]
            omega
          rw [hpos]
          rw [hdata1ne _ (fun hc => hbnotin (hc ▸ (bs'.get_mem i hi')))]
    · -- bw = L: the loop copies nothing
      have hbwL : bw = L := by omega
      have hstop : writeLoop cfg buf L ((b :: bs') ++ List.replicate r 0) bw 0 steps fs =
          (bw, 0, steps, fs) := by
        simp only [List.cons_append, writeLoop]
        rw [if_neg (by omega)]
      refine ⟨fs, steps, ?_, ?_, rfl, rfl, rfl, rfl, fun q _ => rfl, ?_, ?_⟩
      · rw [hstop]
        rw [min_eq_left (by omega), hbwL]
      · intro hfin
        rw [min_eq_left (by omega)] at hfin
        omega
      · intro i hi hge
        rfl
      · intro i hi hltL
        exfalso
        have : bw + 0 ≤ bw + i * cfg.blockSize := by omega
        omega

/-! ### Read-loop lemmas -/

lemma map_buf_split (buf : Nat → Nat) (base sz m : Nat) :
    (List.range (sz + m)).map (fun t => buf (base + t)) =
      (List.range sz).map (fun t => buf (base + t)) ++
        (List.range m).map (fun t => buf (base + sz + t)) := by
  rw [List.range_add, List.map_append, List.map_map]
  congr 1
  apply List.map_congr_left
  intro t _
  simp only [Function.comp]
  congr 1
  omega

/-- The direct read loop over a block-aligned run with data matching buf:
it gathers exactly the bytes buf[br .. min(L, br + capacity)). -/
lemma readLoopD_chunks (cfg : Config) (buf : Nat → Nat) (L : Nat)
    (hBS : 1 ≤ cfg.blockSize) (fs : FS) :
    ∀ (bs : List Nat) (r br steps : Nat) (out : List Nat),
      br ≤ L →
      (∀ b ∈ bs, b ≠ 0) →
      (∀ i, (hi : i < bs.length) → br + i * cfg.blockSize < L →
        ∀ t, t < min cfg.blockSize (L - (br + i * cfg.blockSize)) →
          fs.data (bs.get ⟨i, hi⟩) t = buf (br + i * cfg.blockSize + t)) →
      ∃ steps',
        readLoopD cfg fs L (bs ++ List.replicate r 0) br 0 steps out =
          (min L (br + bs.length * cfg.blockSize), 0, steps',
            out ++ (List.range (min L (br + bs.length * cfg.blockSize) - br)).map
              (fun t => buf (br + t))) ∧
        (min L (br + bs.length * cfg.blockSize) < L → steps' = steps + bs.length)
  | [], r, br, steps, out, hbr, _, _ => by
    have hstop : readLoopD cfg fs L ([] ++ List.replicate r 0) br 0 steps out =
        (br, 0, steps, out) := by
      cases r with
      | zero => rfl
      | succ r =>
        simp only [List.nil_append, List.replicate_succ, readLoopD]
        rw [if_neg (by simp)]
    refine ⟨steps, ?_, ?_⟩
    · rw [hstop]
      simp only [List.length_nil, Nat.zero_mul, Nat.add_zero]
      rw [min_eq_right hbr]
      simp
    · intro hfin
      simp
  | b :: bs', r, br, steps, out, hbr, hnz, hdata => by
    have hb : b ≠ 0 := hnz b (List.mem_cons_self b bs')
    by_cases hlt : br < L
    · set sz := min (cfg.blockSize - 0) (L - br) with hszdef
      have hszle : sz ≤ L - br := min_le_right _ _
      have hszpos : 1 ≤ sz := by
        rw [hszdef]
        omega
      have hstep : readLoopD cfg fs L ((b :: bs') ++ List.replicate r 0) br 0 steps out =
          readLoopD cfg fs L (bs' ++ List.replicate r 0) (br + sz) 0 (steps + 1)
            (out ++ blockSlice (fs.data b) (0 % cfg.blockSize) sz) := by
        simp only [List.cons_append, readLoopD]
        rw [if_pos ⟨hb, hlt⟩]
        rfl
      have hchunk : blockSlice (fs.data b) (0 % cfg.blockSize) sz =
          (List.range sz).map (fun t => buf (br + t)) := by
        unfold blockSlice
        rw [Nat.zero_mod]
        apply List.map_congr_left
        intro t ht
        rw [List.mem_range] at ht
        have := hdata 0 (by simp) (by simpa using hlt) t (by
          simp only [Nat.zero_mul, Nat.add_zero]
          rw [hszdef] at ht
          omega)
        simp only [Nat.zero_mul, Nat.add_zero] at this
        simpa using this
      obtain ⟨steps', heq, hsteps⟩ := readLoopD_chunks cfg buf L hBS fs bs' r (br + sz)
        (steps + 1) (out ++ blockSlice (fs.data b) (0 % cfg.blockSize) sz) (by omega)
        (fun b' hb' => hnz b' (List.mem_cons_of_mem b hb'))
        (by
          intro i hi hiL t ht
          have hszBS : sz = cfg.blockSize := by
            rw [hszdef]
            have : br + sz + 0 ≤ br + sz + i * cfg.blockSize := by omega
            omega
          have := hdata (i + 1) (by simpa using hi) (by
            rw [Nat.succ_mul]
            omega) t (by
            have harg : br + (i + 1) * cfg.blockSize = br + sz + i * cfg.blockSize := by
              rw [Nat.succ_mul]
              omega
            rw [harg]
            exact ht)
          have harg : br + (i + 1) * cfg.blockSize = br + sz + i * cfg.blockSize := by
            rw [Nat.succ_mul]
            omega
          rw [harg] at this
          exact this)
      refine ⟨steps', ?_, ?_⟩
      · rw [hstep, heq, hchunk]
        have hfin1 : min L (br + sz + bs'.length * cfg.blockSize) =
            min L (br + (b :: bs').length * cfg.blockSize) := by
          simp only [List.length_cons]
          rw [Nat.succ_mul]
          omega
        rw [hfin1]
        have hge : br + sz ≤ min L (br + (b :: bs').length * cfg.blockSize) := by
          simp only [List.length_cons]
          rw [Nat.succ_mul]
          omega
        have hsplit : min L (br + (b :: bs').length * cfg.blockSize) - br =
            sz + (min L (br + (b :: bs').length * cfg.blockSize) - (br + sz)) := by
          omega
        rw [hsplit, map_buf_split, List.append_assoc]
      · intro hfin
        simp only [List.length_cons] at hfin ⊢
        rw [Nat.succ_mul] at hfin
        have hszBS : sz = cfg.blockSize := by
          rw [hszdef]
          omega
        have := hsteps (by omega)
        omega
    · have hbrL : br = L := by omega
      have hstop : readLoopD cfg fs L ((b :: bs') ++ List.replicate r 0) br 0 steps out =
          (br, 0, steps, out) := by
        simp only [List.cons_append, readLoopD]
        rw [if_neg (by omega)]
      refine ⟨steps, ?_, ?_⟩
      · rw [hstop, min_eq_left (by omega), hbrL]
        simp
      · intro hfin
        rw [min_eq_left (by omega)] at hfin
        omega

/-- The indirect read loop (as the source writes it) over a block-aligned
run: starting at offset 0 its per-iteration size coincides with the direct
loop's, so it gathers the same bytes. -/
lemma readLoopI_chunks (cfg : Config) (buf : Nat → Nat) (L : Nat)
    (hBS : 1 ≤ cfg.blockSize) (fs : FS) :
    ∀ (bs : List Nat) (r br : Nat) (out : List Nat),
      br ≤ L →
      (∀ b ∈ bs, b ≠ 0) →
      (∀ i, (hi : i < bs.length) → br + i * cfg.blockSize < L →
        ∀ t, t < min cfg.blockSize (L - (br + i * cfg.blockSize)) →
          fs.data (bs.get ⟨i, hi⟩) t = buf (br + i * cfg.blockSize + t)) →
      readLoopI cfg fs L (bs ++ List.replicate r 0) br 0 out =
        (min L (br + bs.length * cfg.blockSize),
          out ++ (List.range (min L (br + bs.length * cfg.blockSize) - br)).map
            (fun t => buf (br + t)))
  | [], r, br, out, hbr, _, _ => by
    have hstop : readLoopI cfg fs L ([] ++ List.replicate r 0) br 0 out =
        (br, out) := by
      cases r with
      | zero => rfl
      | succ r =>
        simp only [List.nil_append, List.replicate_succ, readLoopI]
        rw [if_neg (by simp)]
    rw [hstop]
    simp only [List.length_nil, Nat.zero_mul, Nat.add_zero]
    rw [min_eq_right hbr]
    simp
  | b :: bs', r, br, out, hbr, hnz, hdata => by
    have hb : b ≠ 0 := hnz b (List.mem_cons_self b bs')
    by_cases hlt : br < L
    · set sz := min cfg.blockSize (L - br) with hszdef
      have hszle : sz ≤ L - br := min_le_right _ _
      have hszpos : 1 ≤ sz := by
        rw [hszdef]
        omega
      have hstep : readLoopI cfg fs L ((b :: bs') ++ List.replicate r 0) br 0 out =
          readLoopI cfg fs L (bs' ++ List.replicate r 0) (br + sz) 0
            (out ++ blockSlice (fs.data b) 0 sz) := by
        simp only [List.cons_append, readLoopI]
        rw [if_pos ⟨hb, hlt⟩]
        rfl
      have hchunk : blockSlice (fs.data b) 0 sz =
          (List.range sz).map (fun t => buf (br + t)) := by
        unfold blockSlice
        apply List.map_congr_left
        intro t ht
        rw [List.mem_range] at ht
        have := hdata 0 (by simp) (by simpa using hlt) t (by
          simp only [Nat.zero_mul, Nat.add_zero]
          rw [hszdef] at ht
          omega)
        simp only [Nat.zero_mul, Nat.add_zero] at this
        simpa using this
      have ih := readLoopI_chunks cfg buf L hBS fs bs' r (br + sz)
        (out ++ blockSlice (fs.data b) 0 sz) (by omega)
        (fun b' hb' => hnz b' (List.mem_cons_of_mem b hb'))
        (by
          intro i hi hiL t ht
          have hszBS : sz = cfg.blockSize := by
            rw [hszdef]
            have : br + sz + 0 ≤ br + sz + i * cfg.blockSize := by omega
            omega
          have := hdata (i + 1) (by simpa using hi) (by
            rw [Nat.succ_mul]
            omega) t (by
            have harg : br + (i + 1) * cfg.blockSize = br + sz + i * cfg.blockSize := by
              rw [Nat.succ_mul]
              omega
            rw [harg]
            exact ht)
          have harg : br + (i + 1) * cfg.blockSize = br + sz + i * cfg.blockSize := by
            rw [Nat.succ_mul]
            omega
          rw [harg] at this
          exact this)
      rw [hstep, ih, hchunk]
      have hfin1 : min L (br + sz + bs'.length * cfg.blockSize) =
          min L (br + (b :: bs').length * cfg.blockSize) := by
        simp only [List.length_cons]
        rw [Nat.succ_mul]
        have hh : sz = min cfg.blockSize (L - br) := hszdef
        omega
      rw [hfin1]
      have hsplit : min L (br + (b :: bs').length * cfg.blockSize) - br =
          sz + (min L (br + (b :: bs').length * cfg.blockSize) - (br + sz)) := by
        simp only [List.length_cons]
        rw [Nat.succ_mul]
        omega
      rw [hsplit, map_buf_split, List.append_assoc]
    · have hbrL : br = L := by omega
      have hstop : readLoopI cfg fs L ((b :: bs') ++ List.replicate r 0) br 0 out =
          (br, out) := by
        simp only [List.cons_append, readLoopI]
        rw [if_neg (by omega)]
      rw [hstop, min_eq_left (by omega), hbrL]
      simp

/-! ### upperRound arithmetic -/

lemma upperRound_zero {s : Nat} (hs : 1 ≤ s) : upperRound 0 s = 0 := by
  unfold upperRound
  rw [Nat.zero_add]
  exact Nat.div_eq_of_lt (by omega)

lemma upperRound_pos {x s : Nat} (hs : 1 ≤ s) (hx : 1 ≤ x) : 1 ≤ upperRound x s := by
  unfold upperRound
  rw [Nat.le_div_iff_mul_le (by omega)]
  omega

lemma le_upperRound_mul (x s : Nat) (hs : 1 ≤ s) : x ≤ upperRound x s * s := by
  unfold upperRound
  have h1 := Nat.div_add_mod (x + (s - 1)) s
  have h2 := Nat.mod_lt (x + (s - 1)) (show 0 < s by omega)
  have h3 : (x + (s - 1)) / s * s = s * ((x + (s - 1)) / s) := Nat.mul_comm _ _
  omega

lemma upperRound_mul_le (x s : Nat) (hs : 1 ≤ s) : upperRound x s * s ≤ x + s - 1 := by
  unfold upperRound
  have := Nat.div_mul_le_self (x + (s - 1)) s
  omega

lemma upperRound_mono {x y : Nat} (s : Nat) (h : x ≤ y) :
    upperRound x s ≤ upperRound y s := by
  unfold upperRound
  exact Nat.div_le_div_right (by omega)

lemma upperRound_mul_self (k s : Nat) (hs : 1 ≤ s) : upperRound (k * s) s = k := by
  unfold upperRound
  rw [Nat.add_comm, Nat.add_mul_div_right _ _ (show 0 < s by omega)]
  rw [Nat.div_eq_of_lt (show s - 1 < s by omega)]
  omega

lemma mul_lt_of_upperRound {x s k : Nat} (hs : 1 ≤ s)
    (h : k < upperRound x s) : k * s < x := by
  by_contra hc
  have hle : x ≤ k * s := by omega
  have := upperRound_mono s hle
  rw [upperRound_mul_self k s hs] at this
  omega

/-- Reassembling a list from getD lookups over its index range. -/
lemma map_getD_range : ∀ (l : List Nat) (n : Nat), l.length = n →
    (List.range n).map (fun j => l.getD j 0) = l := by
  intro l n hn
  apply List.ext_getElem
  · simp [hn]
  · intro j h1 h2
    have hj : j < n := by simpa using h1
    rw [List.getElem_map, List.getElem_range]
    rw [List.getD_eq_getElem _ _ (by omega)]

/-! ### fs_expand_file on a fresh inode -/

/-- fs_expand_file on a fresh (size-0, pointerless) inode with enough free
blocks: it allocates exactly ceil(L / BLOCK_SIZE) distinct data blocks
(direct first, then behind a freshly allocated indirect index block),
writes the pointer array of the index block to disk, records size = L, and
touches no other disk block and no inode slot. -/
lemma expand_fresh (cfg : Config) (hBS : 1 ≤ cfg.blockSize) (fs : FS) (nd : Inode)
    (hsize : nd.size = 0) (hdir : nd.direct = List.replicate cfg.pointersPerInode 0)
    (hind : nd.indirect = 0) (L : Nat) (hL : 1 ≤ L)
    (hcap : upperRound L cfg.blockSize ≤ cfg.pointersPerInode + cfg.pointersPerBlock)
    (hfree : neededBlocks cfg L ≤ countFreeData fs) :
    ∃ (bs : List Nat) (ind : Nat) (nd' : Inode) (fs' : FS),
      fs_expand_file cfg fs nd L = (nd', fs') ∧
      bs.length = upperRound L cfg.blockSize ∧
      bs.Nodup ∧
      (∀ b ∈ bs, b ≠ 0 ∧ fs.inodeBlocks + 1 ≤ b ∧ b < fs.diskBlocks) ∧
      (ind ≠ 0 → ind ∉ bs ∧ fs.inodeBlocks + 1 ≤ ind ∧ ind < fs.diskBlocks) ∧
      (ind ≠ 0 ↔ cfg.pointersPerInode < upperRound L cfg.blockSize) ∧
      nd' = { nd with
        size := L
        direct := bs.take cfg.pointersPerInode ++ List.replicate
          (cfg.pointersPerInode - min (upperRound L cfg.blockSize) cfg.pointersPerInode) 0
        indirect := ind } ∧
      fs'.itable = fs.itable ∧ fs'.diskBlocks = fs.diskBlocks ∧
      fs'.inodeBlocks = fs.inodeBlocks ∧
      (∀ q, q ≠ ind → fs'.data q = fs.data q) ∧
      (ind ≠ 0 → readPtrBlock cfg fs' ind =
        bs.drop cfg.pointersPerInode ++ List.replicate
          (cfg.pointersPerBlock - (upperRound L cfg.blockSize - cfg.pointersPerInode)) 0) := by
  have hold : upperRound nd.size cfg.blockSize = 0 := by
    rw [hsize]
    exact upperRound_zero hBS
  set nb := upperRound L cfg.blockSize with hnbdef
  have hnbpos : 1 ≤ nb := upperRound_pos hBS hL
  obtain ⟨bs1, hlen1, hnd1, hprops1, heqD, hcfD⟩ :=
    allocLoopDirect_spec cfg nb nd.direct 0 fs
  have hfree' : nb ≤ countFreeData fs := by
    unfold neededBlocks at hfree
    omega
  have hlen1' : bs1.length = min nb cfg.pointersPerInode := by
    rw [hlen1]
    omega
  have hdir1 : setMany nd.direct 0 bs1 =
      bs1 ++ List.replicate (cfg.pointersPerInode - bs1.length) 0 := by
    rw [hdir]
    exact setMany_replicate (by rw [hlen1']; omega)
  by_cases hcase : nb ≤ cfg.pointersPerInode
  · -- the file fits in the direct pointers: no indirect handling if nb < PPI,
    -- and a net no-op indirect branch when nb = PPI
    have hk1 : bs1.length = nb := by rw [hlen1']; omega
    have hdif1 : nb - bs1.length = 0 := by omega
    have hcore : fs_expand_core cfg fs nd L =
        ({ nd with
            size := L
            direct := setMany nd.direct 0 bs1 },
          { fs with free := clearMany fs.free bs1 }, 0) ∨
        ∃ fsX, fs_expand_core cfg fs nd L =
          ({ nd with
              size := L
              direct := setMany nd.direct 0 bs1
              indirect := 0 }, fsX, 0) ∧
          fsX.itable = fs.itable ∧ fsX.diskBlocks = fs.diskBlocks ∧
          fsX.inodeBlocks = fs.inodeBlocks ∧ fsX.data = fs.data := by
      by_cases hlt : bs1.length < cfg.pointersPerInode
      · -- nb < PPI: the indirect branch is skipped
        refine Or.inl ?_
        simp only [fs_expand_core]
        rw [hold, if_pos (by omega), Nat.sub_zero, ← hnbdef, heqD]
        simp only []
        rw [if_neg (by omega)]
        simp [expandFinalSize, hdif1]
      · -- nb = PPI: the indirect branch runs but allocates nothing durable
        have hk1' : bs1.length = cfg.pointersPerInode := by omega
        refine Or.inr ?_
        rcases halloc2 : (fs_allocate_free_block { fs with free := clearMany fs.free bs1 }).1
          with _ | bI
        · -- no block left for the speculative indirect allocation
          have heqA : fs_allocate_free_block { fs with free := clearMany fs.free bs1 } =
              (none, { fs with free := clearMany fs.free bs1 }) :=
            Prod.ext halloc2 (alloc_none halloc2).2
          refine ⟨{ fs with free := clearMany fs.free bs1 }, ?_, rfl, rfl, rfl, rfl⟩
          simp only [fs_expand_core]
          rw [hold, if_pos (by omega), Nat.sub_zero, ← hnbdef, heqD]
          simp only []
          rw [if_pos (by omega), if_pos hind, heqA]
          simp [expandFinalSize, hdif1]
        · -- a block is allocated for the indirect index and released again
          obtain ⟨hb1, hb2, hb3, _, _, h6⟩ := alloc_some halloc2
          have heqA : fs_allocate_free_block { fs with free := clearMany fs.free bs1 } =
              (some bI, { fs with free := fun q =>
                if q = bI then false else clearMany fs.free bs1 q }) := by
            refine Prod.ext halloc2 ?_
            rw [h6]
          refine ⟨{ fs with free := fun q =>
            if q = bI then true
            else if q = bI then false else clearMany fs.free bs1 q }, ?_, rfl, rfl, rfl, rfl⟩
          simp only [fs_expand_core]
          rw [hold, if_pos (by omega), Nat.sub_zero, ← hnbdef, heqD]
          simp only []
          rw [if_pos (by omega), if_pos hind, heqA]
          simp only []
          rw [if_pos hind]
          have hj0 : 0 + bs1.length - cfg.pointersPerInode = 0 := by omega
          rw [hj0]
          have hptr : allocLoopPtrs cfg (nb - bs1.length)
              (List.replicate cfg.pointersPerBlock 0) 0
              { fs with free := fun q =>
                if q = bI then false else clearMany fs.free bs1 q } =
              (List.replicate cfg.pointersPerBlock 0, 0, 0,
                { fs with free := fun q =>
                  if q = bI then false else clearMany fs.free bs1 q }) := by
            rw [hdif1]
            rfl
          rw [hptr]
          simp only []
          rw [if_pos ⟨trivial, hind⟩]
          simp [expandFinalSize]
    -- assemble the conclusions for the fits-direct case
    have hfile : ∃ fsX, fs_expand_file cfg fs nd L =
        ({ nd with
            size := L
            direct := setMany nd.direct 0 bs1
            indirect := 0 }, fsX) ∧
        fsX.itable = fs.itable ∧ fsX.diskBlocks = fs.diskBlocks ∧
        fsX.inodeBlocks = fs.inodeBlocks ∧ fsX.data = fs.data := by
      rcases hcore with hcore | ⟨fsX, hcore, hX⟩
      · refine ⟨{ fs with free := clearMany fs.free bs1 }, ?_, rfl, rfl, rfl, rfl⟩
        unfold fs_expand_file
        rw [hcore]
        have hnd0 : ({ nd with size := L, direct := setMany nd.direct 0 bs1 } : Inode) =
            { nd with
              size := L
              direct := setMany nd.direct 0 bs1
              indirect := 0 } := by
          rw [show nd.indirect = 0 from hind]
        rw [← hnd0]
      · refine ⟨fsX, ?_, hX.1, hX.2.1, hX.2.2.1, hX.2.2.2⟩
        unfold fs_expand_file
        rw [hcore]
    obtain ⟨fsX, hfile, hX1, hX2, hX3, hX4⟩ := hfile
    refine ⟨bs1, 0, _, fsX, hfile, by omega, hnd1, ?_, by simp, ?_, ?_, hX1, hX2, hX3, ?_, ?_⟩
    · intro b hb
      obtain ⟨hp1, hp2, hp3⟩ := hprops1 b hb
      exact ⟨by omega, hp1, hp2⟩
    · constructor
      · intro hc
        exact absurd rfl hc
      · intro hc
        omega
    · rw [hdir1]
      rw [List.take_of_length_le (by omega)]
      rw [hk1, Nat.min_eq_left hcase]
    · intro q _
      rw [hX4]
    · intro hc
      exact absurd rfl hc
  · -- nb > PPI: the indirect index block is allocated and filled
    push_neg at hcase
    have hk1 : bs1.length = cfg.pointersPerInode := by rw [hlen1']; omega
    have hfreeC : nb + 1 ≤ countFreeData fs := by
      unfold neededBlocks at hfree
      rw [if_pos (by omega)] at hfree
      omega
    set fs1 : FS := { fs with free := clearMany fs.free bs1 } with hfs1def
    have hcf1 : countFreeData fs1 = countFreeData fs - bs1.length := hcfD
    obtain ⟨bI, halloc2⟩ := alloc_some_of_countFree fs1 (by rw [hcf1]; omega)
    obtain ⟨hb1, hb2, hb3, hbne0, _, h6⟩ := alloc_some halloc2
    set fs2 : FS := { fs1 with free := fun q => if q = bI then false else fs1.free q }
      with hfs2def
    have heqA : fs_allocate_free_block fs1 = (some bI, fs2) := Prod.ext halloc2 h6
    have hcf2 : countFreeData fs2 = countFreeData fs1 - 1 := by
      have := (countFree_alloc halloc2).1
      rw [h6] at this
      exact this
    obtain ⟨bs2, hlen2, hnd2, hprops2, heqP, hcfP⟩ :=
      allocLoopPtrs_spec cfg (nb - bs1.length) (List.replicate cfg.pointersPerBlock 0) 0 fs2
    have hlen2' : bs2.length = nb - cfg.pointersPerInode := by
      rw [hlen2, hcf2, hcf1, hk1]
      omega
    have hdif2 : nb - bs1.length - bs2.length = 0 := by
      rw [hk1, hlen2']
      omega
    set ptrs1 : List Nat := setMany (List.replicate cfg.pointersPerBlock 0) 0 bs2
      with hptrs1def
    set fs3 : FS := { fs2 with free := clearMany fs2.free bs2 } with hfs3def
    have hbIlt : bI < fs3.diskBlocks := hb2
    have hfs4 : diskWriteData fs3 bI (listToBlock ptrs1) =
        { fs3 with data := fun q => if q = bI then listToBlock ptrs1 else fs3.data q } := by
      unfold diskWriteData
      rw [if_pos hbIlt]
    set fs4 : FS :=
      { fs3 with data := fun q => if q = bI then listToBlock ptrs1 else fs3.data q }
      with hfs4def
    have hcore : fs_expand_core cfg fs nd L =
        ({ nd with
            size := L
            direct := setMany nd.direct 0 bs1
            indirect := bI }, fs4, 0) := by
      simp only [fs_expand_core]
      rw [hold, if_pos (by omega), Nat.sub_zero, ← hnbdef, heqD]
      simp only []
      rw [if_pos (by omega)]
      rw [if_pos hind, heqA]
      simp only []
      rw [if_pos hind]
      have hj0 : 0 + bs1.length - cfg.pointersPerInode = 0 := by omega
      rw [hj0, heqP]
      simp only []
      rw [if_neg (by
        intro hc
        have hc1 := hc.1
        rw [hlen2'] at hc1
        omega)]
      rw [hfs4]
      rw [show nb - bs1.length - bs2.length = 0 from hdif2]
      simp [expandFinalSize]
    have hfile : fs_expand_file cfg fs nd L =
        ({ nd with
            size := L
            direct := setMany nd.direct 0 bs1
            indirect := bI }, fs4) := by
      unfold fs_expand_file
      rw [hcore]
    -- membership facts for the pointer-phase blocks, transported back to fs
    have hprops2' : ∀ b ∈ bs2, (b ≠ 0 ∧ fs.inodeBlocks + 1 ≤ b ∧ b < fs.diskBlocks) ∧
        b ≠ bI ∧ b ∉ bs1 := by
      intro b hb
      obtain ⟨hp1, hp2, hp3⟩ := hprops2 b hb
      have hp1' : fs.inodeBlocks + 1 ≤ b := hp1
      have hp2' : b < fs.diskBlocks := hp2
      have hp3' : (if b = bI then false else clearMany fs.free bs1 b) = true := hp3
      by_cases hbb : b = bI
      · rw [if_pos hbb] at hp3'
        exact absurd hp3' (by simp)
      · rw [if_neg hbb] at hp3'
        rw [clearMany_eq] at hp3'
        simp only [Bool.and_eq_true, Bool.not_eq_true'] at hp3'
        refine ⟨⟨by omega, hp1', hp2'⟩, hbb, ?_⟩
        have h2 := hp3'.2
        simp at h2
        exact h2
    have hbInotbs1 : bI ∉ bs1 := by
      have hb3' : clearMany fs.free bs1 bI = true := hb3
      rw [clearMany_eq] at hb3'
      simp only [Bool.and_eq_true, Bool.not_eq_true'] at hb3'
      have h2 := hb3'.2
      simp at h2
      exact h2
    have hdisj : ∀ a ∈ bs1, a ∉ bs2 := by
      intro a ha hc
      exact (hprops2' a hc).2.2 ha
    refine ⟨bs1 ++ bs2, bI, _, fs4, hfile, ?_, ?_, ?_, ?_, ?_, ?_, rfl, rfl, rfl, ?_, ?_⟩
    · rw [List.length_append, hk1, hlen2']
      omega
    · rw [List.nodup_append]
      exact ⟨hnd1, hnd2, hdisj⟩
    · intro b hb
      rcases List.mem_append.1 hb with hb | hb
      · obtain ⟨hp1, hp2, hp3⟩ := hprops1 b hb
        exact ⟨by omega, hp1, hp2⟩
      · exact (hprops2' b hb).1
    · intro _
      refine ⟨?_, hb1, hb2⟩
      intro hc
      rcases List.mem_append.1 hc with hc | hc
      · exact hbInotbs1 hc
      · exact (hprops2' bI hc).2.1 rfl
    · constructor
      · intro _
        omega
      · intro _
        omega
    · rw [hdir1, hk1]
      rw [List.take_left' hk1]
      rw [min_eq_right (by omega)]
    · intro q hq
      rw [hfs4def]
      simp only
      rw [if_neg hq]
    · intro _
      unfold readPtrBlock
      have hmap : ∀ j, fs4.data bI j = ptrs1.getD j 0 := by
        intro j
        rw [hfs4def]
        simp only []
        rw [if_pos trivial]
        rfl
      have : (List.range cfg.pointersPerBlock).map (fun j => fs4.data bI j) =
          (List.range cfg.pointersPerBlock).map (fun j => ptrs1.getD j 0) := by
        apply List.map_congr_left
        intro j _
        exact hmap j
      rw [this]
      rw [map_getD_range ptrs1 cfg.pointersPerBlock (by
        rw [hptrs1def, setMany_length]
        simp)]
      rw [hptrs1def, setMany_replicate (by rw [hlen2']; omega)]
      rw [List.drop_left' hk1]
      rw [hlen2']

/-! ### C3: expand records size truthfully -/

/-- Along the growth path every exit of fs_expand_core sets
size = expandFinalSize over the deficit it returns. -/
lemma expand_core_size (cfg : Config) (fs : FS) (nd : Inode) (ns : Nat)
    (hgrow : upperRound nd.size cfg.blockSize < upperRound ns cfg.blockSize) :
    (fs_expand_core cfg fs nd ns).1.size =
      expandFinalSize cfg ns (upperRound ns cfg.blockSize)
        (fs_expand_core cfg fs nd ns).2.2 := by
  simp only [fs_expand_core]
  rw [if_pos hgrow]
  rcases hD : allocLoopDirect cfg
      (upperRound ns cfg.blockSize - upperRound nd.size cfg.blockSize)
      nd.direct (upperRound nd.size cfg.blockSize) fs with ⟨dir1, idx1, dif1, fs1⟩
  simp only []
  by_cases hidx : cfg.pointersPerInode ≤ idx1
  · rw [if_pos hidx]
    by_cases hiz : nd.indirect = 0
    · rw [if_pos hiz]
      rcases hA : fs_allocate_free_block fs1 with ⟨opt, fs2⟩
      simp only []
      rcases opt with _ | indPtr
      · rfl
      · simp only []
        rw [if_pos hiz]
        rcases hP : allocLoopPtrs cfg dif1 (List.replicate cfg.pointersPerBlock 0)
            (idx1 - cfg.pointersPerInode) fs2 with ⟨ptrs1, j1, dif2, fs3⟩
        simp only []
        by_cases hjw : j1 = 0 ∧ nd.indirect = 0
        · rw [if_pos hjw]
        · rw [if_neg hjw]
    · rw [if_neg hiz]
      simp only []
      rw [if_neg hiz]
      rcases hP : allocLoopPtrs cfg dif1 (readPtrBlock cfg fs1 nd.indirect)
          (idx1 - cfg.pointersPerInode) fs1 with ⟨ptrs1, j1, dif2, fs3⟩
      simp only []
      by_cases hjw : j1 = 0 ∧ nd.indirect = 0
      · rw [if_pos hjw]
      · rw [if_neg hjw]
  · rw [if_neg hidx]

/-- C3: along the growth path fs_expand_file records the size truthfully:
new_size when the final deficit dif is 0, and (new_blocks - dif) *
BLOCK_SIZE when dif needed blocks could not be allocated; concretely, on an
image with exactly 3 free data blocks, create() followed by a write of
4 * BLOCK_SIZE bytes at offset 0 returns 3 * BLOCK_SIZE and records
size = 3 * BLOCK_SIZE.  (Corrected: when the block count does not grow -
e.g. a size reduction - the source sets size = max(size, new_size), never
below the old size, so "size equals new_size when all needed blocks were
allocated" fails there; see the counterexample.) -/
theorem expand_size_truthful (cfg : Config) (fs : FS) (nd : Inode) (ns : Nat)
    (hgrow : upperRound nd.size cfg.blockSize < upperRound ns cfg.blockSize) :
    (((fs_expand_core cfg fs nd ns).2.2 = 0 →
        (fs_expand_core cfg fs nd ns).1.size = ns) ∧
      ((fs_expand_core cfg fs nd ns).2.2 ≠ 0 →
        (fs_expand_core cfg fs nd ns).1.size =
          (upperRound ns cfg.blockSize - (fs_expand_core cfg fs nd ns).2.2) *
            cfg.blockSize)) ∧
    countFreeData fsW3b = 3 ∧
    (fs_create fsW3b).map Prod.fst = some 0 ∧
    (fs_write cfgW3 fsW3 0 bufW3 (4 * cfgW3.blockSize) 0).map
      (fun p => (p.1, (p.2.itable.getD 0 (zeroInode cfgW3)).size)) =
      some (3 * cfgW3.blockSize, 3 * cfgW3.blockSize) := by
  refine ⟨⟨?_, ?_⟩, by decide, rfl, rfl⟩
  · intro h0
    rw [expand_core_size cfg fs nd ns hgrow, h0, expandFinalSize, if_pos rfl]
  · intro h0
    rw [expand_core_size cfg fs nd ns hgrow, expandFinalSize, if_neg h0]

/-- Witness for the C3 theorem at a concrete growing expansion. -/
theorem expand_size_truthful_witness :
    upperRound (0 : Nat) cfgW.blockSize < upperRound 20 cfgW.blockSize ∧
      (((fs_expand_core cfgW fsW6 ⟨true, 0, [0, 0], 0⟩ 20).2.2 = 0 →
          (fs_expand_core cfgW fsW6 ⟨true, 0, [0, 0], 0⟩ 20).1.size = 20) ∧
        ((fs_expand_core cfgW fsW6 ⟨true, 0, [0, 0], 0⟩ 20).2.2 ≠ 0 →
          (fs_expand_core cfgW fsW6 ⟨true, 0, [0, 0], 0⟩ 20).1.size =
            (upperRound 20 cfgW.blockSize -
              (fs_expand_core cfgW fsW6 ⟨true, 0, [0, 0], 0⟩ 20).2.2) *
              cfgW.blockSize)) ∧
      countFreeData fsW3b = 3 ∧
      (fs_create fsW3b).map Prod.fst = some 0 ∧
      (fs_write cfgW3 fsW3 0 bufW3 (4 * cfgW3.blockSize) 0).map
        (fun p => (p.1, (p.2.itable.getD 0 (zeroInode cfgW3)).size)) =
        some (3 * cfgW3.blockSize, 3 * cfgW3.blockSize) :=
  ⟨by decide, expand_size_truthful cfgW fsW6 ⟨true, 0, [0, 0], 0⟩ 20 (by decide)⟩

/-! ### C8: fs_write never shrinks the recorded size -/

lemma alloc_fields (fs : FS) :
    (fs_allocate_free_block fs).2.itable = fs.itable ∧
    (fs_allocate_free_block fs).2.diskBlocks = fs.diskBlocks ∧
    (fs_allocate_free_block fs).2.inodeBlocks = fs.inodeBlocks := by
  rcases h : (fs_allocate_free_block fs).1 with _ | b
  · rw [(alloc_none h).2]
    exact ⟨rfl, rfl, rfl⟩
  · rw [(alloc_some h).2.2.2.2.2]
    exact ⟨rfl, rfl, rfl⟩

lemma allocLoopDirect_fields (cfg : Config) (dif : Nat) (direct : List Nat)
    (idx : Nat) (fs : FS) :
    (allocLoopDirect cfg dif direct idx fs).2.2.2.itable = fs.itable ∧
    (allocLoopDirect cfg dif direct idx fs).2.2.2.diskBlocks = fs.diskBlocks ∧
    (allocLoopDirect cfg dif direct idx fs).2.2.2.inodeBlocks = fs.inodeBlocks ∧
    (allocLoopDirect cfg dif direct idx fs).2.2.1 ≤ dif := by
  obtain ⟨bs, hlen, _, _, heq, _⟩ := allocLoopDirect_spec cfg dif direct idx fs
  rw [heq]
  refine ⟨rfl, rfl, rfl, ?_⟩
  simp only []
  omega

lemma allocLoopPtrs_fields (cfg : Config) (dif : Nat) (ptrs : List Nat)
    (j : Nat) (fs : FS) :
    (allocLoopPtrs cfg dif ptrs j fs).2.2.2.itable = fs.itable ∧
    (allocLoopPtrs cfg dif ptrs j fs).2.2.2.diskBlocks = fs.diskBlocks ∧
    (allocLoopPtrs cfg dif ptrs j fs).2.2.2.inodeBlocks = fs.inodeBlocks ∧
    (allocLoopPtrs cfg dif ptrs j fs).2.2.1 ≤ dif := by
  obtain ⟨bs, hlen, _, _, heq, _⟩ := allocLoopPtrs_spec cfg dif ptrs j fs
  rw [heq]
  refine ⟨rfl, rfl, rfl, ?_⟩
  simp only []
  omega

/-- fs_expand_core touches neither the inode table nor the disk geometry,
and never reports a deficit above the number of blocks it set out to
allocate. -/
lemma expand_core_frame (cfg : Config) (fs : FS) (nd : Inode) (ns : Nat) :
    (fs_expand_core cfg fs nd ns).2.1.itable = fs.itable ∧
    (fs_expand_core cfg fs nd ns).2.1.diskBlocks = fs.diskBlocks ∧
    (fs_expand_core cfg fs nd ns).2.1.inodeBlocks = fs.inodeBlocks ∧
    (fs_expand_core cfg fs nd ns).2.2 ≤
      upperRound ns cfg.blockSize - upperRound nd.size cfg.blockSize := by
  simp only [fs_expand_core]
  by_cases hgrow : upperRound nd.size cfg.blockSize < upperRound ns cfg.blockSize
  · rw [if_pos hgrow]
    have hDf := allocLoopDirect_fields cfg
      (upperRound ns cfg.blockSize - upperRound nd.size cfg.blockSize)
      nd.direct (upperRound nd.size cfg.blockSize) fs
    rcases hD : allocLoopDirect cfg
        (upperRound ns cfg.blockSize - upperRound nd.size cfg.blockSize)
        nd.direct (upperRound nd.size cfg.blockSize) fs with ⟨dir1, idx1, dif1, fs1⟩
    rw [hD] at hDf
    simp only [] at hDf ⊢
    obtain ⟨hi1, hi2, hi3, hd1⟩ := hDf
    by_cases hidx : cfg.pointersPerInode ≤ idx1
    · rw [if_pos hidx]
      by_cases hiz : nd.indirect = 0
      · rw [if_pos hiz]
        have hAf := alloc_fields fs1
        rcases hA : fs_allocate_free_block fs1 with ⟨opt, fs2⟩
        rw [hA] at hAf
        simp only [] at hAf ⊢
        obtain ⟨ha1, ha2, ha3⟩ := hAf
        rcases opt with _ | indPtr
        · simp only []
          exact ⟨by rw [ha1, hi1], by rw [ha2, hi2], by rw [ha3, hi3], by omega⟩
        · simp only []
          rw [if_pos hiz]
          have hPf := allocLoopPtrs_fields cfg dif1
            (List.replicate cfg.pointersPerBlock 0) (idx1 - cfg.pointersPerInode) fs2
          rcases hP : allocLoopPtrs cfg dif1 (List.replicate cfg.pointersPerBlock 0)
              (idx1 - cfg.pointersPerInode) fs2 with ⟨ptrs1, j1, dif2, fs3⟩
          rw [hP] at hPf
          simp only [] at hPf ⊢
          obtain ⟨hp1, hp2, hp3, hp4⟩ := hPf
          by_cases hjw : j1 = 0 ∧ nd.indirect = 0
          · rw [if_pos hjw]
            exact ⟨by rw [hp1, ha1, hi1], by rw [hp2, ha2, hi2],
              by rw [hp3, ha3, hi3], by simp only []; omega⟩
          · rw [if_neg hjw]
            have hW := diskWriteData_fields fs3 indPtr (listToBlock ptrs1)
            exact ⟨by rw [hW.1, hp1, ha1, hi1], by rw [hW.2.2.1, hp2, ha2, hi2],
              by rw [hW.2.2.2, hp3, ha3, hi3], by simp only []; omega⟩
      · rw [if_neg hiz]
        simp only []
        rw [if_neg hiz]
        have hPf := allocLoopPtrs_fields cfg dif1
          (readPtrBlock cfg fs1 nd.indirect) (idx1 - cfg.pointersPerInode) fs1
        rcases hP : allocLoopPtrs cfg dif1 (readPtrBlock cfg fs1 nd.indirect)
            (idx1 - cfg.pointersPerInode) fs1 with ⟨ptrs1, j1, dif2, fs3⟩
        rw [hP] at hPf
        simp only [] at hPf ⊢
        obtain ⟨hp1, hp2, hp3, hp4⟩ := hPf
        rw [if_neg (fun hc => hiz hc.2)]
        have hW := diskWriteData_fields fs3 nd.indirect (listToBlock ptrs1)
        exact ⟨by rw [hW.1, hp1, hi1], by rw [hW.2.2.1, hp2, hi2],
          by rw [hW.2.2.2, hp3, hi3], by simp only []; omega⟩
    · rw [if_neg hidx]
      exact ⟨hi1, hi2, hi3, by simp only []; omega⟩
  · rw [if_neg hgrow]
    exact ⟨rfl, rfl, rfl, by simp only []; omega⟩

/-- fs_expand_file never lowers the recorded size. -/
lemma expand_file_size_monotone (cfg : Config) (hBS : 1 ≤ cfg.blockSize)
    (fs : FS) (nd : Inode) (ns : Nat) :
    nd.size ≤ (fs_expand_file cfg fs nd ns).1.size := by
  unfold fs_expand_file
  have hs0 := expand_core_frame cfg fs nd ns
  rcases hC : fs_expand_core cfg fs nd ns with ⟨nd1, fs1, dif⟩
  simp only []
  by_cases hgrow : upperRound nd.size cfg.blockSize < upperRound ns cfg.blockSize
  · have hs := expand_core_size cfg fs nd ns hgrow
    have hd := hs0.2.2.2
    rw [hC] at hs hd
    simp only [] at hs hd
    rw [hs, expandFinalSize]
    by_cases h0 : dif = 0
    · rw [if_pos h0]
      by_contra hlt
      push_neg at hlt
      have hm := upperRound_mono cfg.blockSize (le_of_lt hlt)
      omega
    · rw [if_neg h0]
      have h2 : nd.size ≤ upperRound nd.size cfg.blockSize * cfg.blockSize :=
        le_upperRound_mul nd.size cfg.blockSize hBS
      have h3 : upperRound nd.size cfg.blockSize * cfg.blockSize ≤
          (upperRound ns cfg.blockSize - dif) * cfg.blockSize :=
        Nat.mul_le_mul_right _ (by omega)
      omega
  · simp only [fs_expand_core] at hC
    rw [if_neg hgrow] at hC
    have h1 := congrArg (fun p => p.1.size) hC
    simp only [] at h1
    rw [← h1]
    exact le_max_left _ _

/-- C8: size monotonicity of fs_write holds: every successful
fs_write leaves the written inode with a size at least its size before the
call.  (Corrected: the claim's second half, size ≥ offset + bytes_written,
fails when the disk runs out of free blocks - the expansion then truncates
the file below offset and the copy loops write fewer bytes than requested,
possibly zero; see the counterexample.) -/
theorem write_size_monotone (cfg : Config) (fs : FS) (n : Nat) (buf : Nat → Nat)
    (length offset bw : Nat) (fs' : FS) (nd0 : Inode)
    (hBS : 1 ≤ cfg.blockSize)
    (hload : fs_load_inode fs n = some nd0)
    (hw : fs_write cfg fs n buf length offset = some (bw, fs')) :
    nd0.size ≤ (fs'.itable.getD n defaultInode).size := by
  have hn : n < fs.itable.length := by
    by_contra hge
    push_neg at hge
    unfold fs_load_inode at hload
    rw [List.getD_eq_default _ _ hge] at hload
    simp [defaultInode] at hload
  unfold fs_write at hw
  rw [hload] at hw
  simp only [] at hw
  have hEf := expand_core_frame cfg fs nd0 ((offset + length) % SIZE_T_MOD)
  have hmono := expand_file_size_monotone cfg hBS fs nd0 ((offset + length) % SIZE_T_MOD)
  unfold fs_expand_file at hw hmono
  rcases hC : fs_expand_core cfg fs nd0 ((offset + length) % SIZE_T_MOD)
    with ⟨nd, fs1, dif⟩
  rw [hC] at hw hEf hmono
  simp only [] at hw hEf hmono
  have hit1 : fs1.itable = fs.itable := hEf.1
  have hW1f := writeLoop_frame cfg buf length (nd.direct.drop (offset / cfg.blockSize))
    0 (offset % cfg.blockSize) 0 fs1
  rcases hW1 : writeLoop cfg buf length (nd.direct.drop (offset / cfg.blockSize))
      0 (offset % cfg.blockSize) 0 fs1 with ⟨bw1, off1, steps1, fs2⟩
  rw [hW1] at hw hW1f
  simp only [] at hw hW1f
  have hit2 : fs2.itable = fs.itable := by rw [hW1f.1, hit1]
  by_cases hcont : bw1 < length ∧ nd.indirect ≠ 0
  · rw [if_pos hcont] at hw
    have hW2f := writeLoop_frame cfg buf length
      ((readPtrBlock cfg fs2 nd.indirect).drop
        (sub64 (offset / cfg.blockSize + steps1) cfg.pointersPerInode)) bw1 off1 0 fs2
    rcases hW2 : writeLoop cfg buf length
        ((readPtrBlock cfg fs2 nd.indirect).drop
          (sub64 (offset / cfg.blockSize + steps1) cfg.pointersPerInode)) bw1 off1 0 fs2
      with ⟨bw2, off2, steps2, fs3⟩
    rw [hW2] at hw hW2f
    simp only [] at hw hW2f
    have hit3 : fs3.itable = fs.itable := by rw [hW2f.1, hit2]
    have hfs' : fs' = fs_save_inode fs3 n nd := by
      have := hw
      simp only [Option.some.injEq, Prod.mk.injEq] at this
      exact this.2.symm
    rw [hfs']
    unfold fs_save_inode
    simp only []
    rw [getD_set_self _ _ _ _ (by rw [hit3]; exact hn)]
    exact hmono
  · rw [if_neg hcont] at hw
    have hfs' : fs' = fs_save_inode fs2 n nd := by
      have := hw
      simp only [Option.some.injEq, Prod.mk.injEq] at this
      exact this.2.symm
    rw [hfs']
    unfold fs_save_inode
    simp only []
    rw [getD_set_self _ _ _ _ (by rw [hit2]; exact hn)]
    exact hmono

/-- C8 counterexample (second half of the claim): with one free data block
a write of BLOCK_SIZE bytes at offset 2 * BLOCK_SIZE succeeds with
bytes_written = 0, but the resulting size BLOCK_SIZE is smaller than
offset + bytes_written = 2 * BLOCK_SIZE. -/
theorem write_size_offset_counterexample :
    (fs_write cfgW fsW8 0 bufW3 8 16).map
      (fun p => (p.1, (p.2.itable.getD 0 defaultInode).size)) = some (0, 8) ∧
    ¬ (16 + 0 ≤ 8) := ⟨rfl, by decide⟩

/-- Witness for the C8 monotonicity theorem at a concrete truncated write. -/
theorem write_size_monotone_witness :
    1 ≤ cfgW.blockSize ∧
    fs_load_inode fsW8 0 = some ⟨true, 0, [0, 0], 0⟩ ∧
    fs_write cfgW fsW8 0 bufW3 8 16 = some (0, fsW8w) ∧
    (⟨true, 0, [0, 0], 0⟩ : Inode).size ≤ ((fsW8w).itable.getD 0 defaultInode).size :=
  ⟨by decide, rfl, rfl,
    write_size_monotone cfgW fsW8 0 bufW3 8 16 0 fsW8w ⟨true, 0, [0, 0], 0⟩
      (by decide) rfl rfl⟩

/-! ### C1: write/read round trip on a fresh inode -/

/-- Loading right after saving yields the saved inode (when the slot exists
and the inode is valid). -/
lemma load_save (fs : FS) (n : Nat) (nd : Inode) (hn : n < fs.itable.length)
    (hv : nd.valid = true) :
    fs_load_inode (fs_save_inode fs n nd) n = some nd := by
  unfold fs_load_inode fs_save_inode
  simp only []
  rw [getD_set_self _ _ _ _ (by simpa using hn)]
  rw [if_pos hv]

lemma map_range_split (f : Nat → Nat) (sz m : Nat) :
    (List.range (sz + m)).map f = (List.range sz).map f ++
      (List.range m).map (fun t => f (sz + t)) := by
  rw [List.range_add, List.map_append, List.map_map]
  rfl

/-- C1: read/write round trip: writing a buffer of length L at offset 0
into a freshly created inode (with enough free blocks and
L ≤ (POINTERS_PER_INODE + POINTERS_PER_BLOCK) * BLOCK_SIZE) returns L, and
a subsequent read of L bytes at offset 0 returns L and exactly the written
bytes. -/
theorem write_read_round_trip (cfg : Config) (fs : FS) (n : Nat) (buf : Nat → Nat)
    (L : Nat) (hBS : 1 ≤ cfg.blockSize)
    (hcap : L ≤ (cfg.pointersPerInode + cfg.pointersPerBlock) * cfg.blockSize)
    (hmod : L < SIZE_T_MOD)
    (hslot : fs.itable.getD n defaultInode =
      ⟨true, 0, List.replicate cfg.pointersPerInode 0, 0⟩)
    (hfree : neededBlocks cfg L ≤ countFreeData fs) :
    ∃ fs2, fs_write cfg fs n buf L 0 = some (L, fs2) ∧
      fs_read cfg fs2 n L 0 = ReadResult.ok L ((List.range L).map buf) := by
  have hload : fs_load_inode fs n =
      some ⟨true, 0, List.replicate cfg.pointersPerInode 0, 0⟩ := by
    unfold fs_load_inode
    rw [hslot]
    rfl
  have hn : n < fs.itable.length := by
    by_contra hge
    push_neg at hge
    rw [List.getD_eq_default _ _ hge] at hslot
    have := congrArg Inode.valid hslot
    simp [defaultInode] at this
  have hns : (0 + L) % SIZE_T_MOD = L := by
    rw [Nat.zero_add]
    exact Nat.mod_eq_of_lt hmod
  have hsubL : sub64 L 0 = L := by
    unfold sub64
    rw [Nat.sub_zero, Nat.add_comm, Nat.add_mod_right]
    exact Nat.mod_eq_of_lt hmod
  unfold fs_write
  rw [hload]
  simp only []
  rw [hns, Nat.zero_div, Nat.zero_mod]
  by_cases hL0 : L = 0
  · -- zero-length write: no expansion, both loops stop at once
    subst hL0
    have hexp0 : fs_expand_file cfg fs
        ⟨true, 0, List.replicate cfg.pointersPerInode 0, 0⟩ 0 =
        (⟨true, 0, List.replicate cfg.pointersPerInode 0, 0⟩, fs) := by
      unfold fs_expand_file
      simp only [fs_expand_core]
      rw [if_neg (lt_irrefl _)]
      simp only []
      rfl
    rw [hexp0]
    simp only []
    obtain ⟨fs2, steps', hW, _, hit2, _, _, _, _, _, _⟩ :=
      writeLoop_chunks cfg buf 0 hBS [] cfg.pointersPerInode 0 0 fs
        (Nat.le_refl 0) (by intro b hb; cases hb) List.nodup_nil
    rw [List.nil_append] at hW
    rw [List.drop_zero, hW]
    simp only [List.length_nil, Nat.zero_mul, Nat.add_zero, Nat.min_self]
    rw [if_neg (by intro hcc; exact absurd hcc.1 (by simp))]
    refine ⟨_, rfl, ?_⟩
    unfold fs_read
    rw [load_save _ _ _ (by rw [hit2]; exact hn) rfl]
    simp only []
    rw [hsubL, min_self, Nat.zero_div, Nat.zero_mod, List.drop_zero]
    obtain ⟨steps2, hR, _⟩ := readLoopD_chunks cfg buf 0 hBS
      (fs_save_inode fs2 n ⟨true, 0, List.replicate cfg.pointersPerInode 0, 0⟩)
      [] cfg.pointersPerInode 0 0 [] (Nat.le_refl 0)
      (by intro b hb; cases hb) (by intro i hi; cases hi)
    rw [List.nil_append] at hR
    rw [hR]
    simp only [List.length_nil, Nat.zero_mul, Nat.add_zero, Nat.min_self]
    rw [if_neg (by intro hcc; exact absurd hcc.1 (by simp))]
    rw [if_pos trivial]
    simp
  · have hL1 : 1 ≤ L := Nat.one_le_iff_ne_zero.2 hL0
    have hcap' : upperRound L cfg.blockSize ≤
        cfg.pointersPerInode + cfg.pointersPerBlock := by
      have h1 := upperRound_mono cfg.blockSize hcap
      rw [upperRound_mul_self _ _ hBS] at h1
      exact h1
    have hLle : L ≤ upperRound L cfg.blockSize * cfg.blockSize :=
      le_upperRound_mul L cfg.blockSize hBS
    obtain ⟨bs, ind, nd', fs', hfile, hlen, hnodup, hprops, hindp, hindiff, hnd'eq,
        hit, hdb, hib, hdata, hptr⟩ :=
      expand_fresh cfg hBS fs ⟨true, 0, List.replicate cfg.pointersPerInode 0, 0⟩
        rfl rfl rfl L hL1 hcap' hfree
    rw [hfile]
    simp only []
    rw [hnd'eq]
    simp only []
    rw [List.drop_zero]
    by_cases hc : upperRound L cfg.blockSize ≤ cfg.pointersPerInode
    · -- the file fits in the direct pointers
      have hind0 : ind = 0 := by
        by_contra hcc
        have := hindiff.1 hcc
        omega
      subst hind0
      have htake : bs.take cfg.pointersPerInode = bs :=
        List.take_of_length_le (by rw [hlen]; omega)
      have hr : cfg.pointersPerInode -
          min (upperRound L cfg.blockSize) cfg.pointersPerInode =
          cfg.pointersPerInode - upperRound L cfg.blockSize := by
        rw [Nat.min_eq_left hc]
      rw [htake, hr]
      obtain ⟨fs2, steps', hW, hsteps, hit2, hfree2, hdb2, hib2, hdataq, hdatahi, hdataW⟩ :=
        writeLoop_chunks cfg buf L hBS bs
          (cfg.pointersPerInode - upperRound L cfg.blockSize) 0 0 fs' (Nat.zero_le L)
          (fun b hb => ⟨(hprops b hb).1, by rw [hdb]; exact (hprops b hb).2.2⟩)
          hnodup
      rw [hW]
      simp only []
      have hmin : min L (0 + bs.length * cfg.blockSize) = L := by
        rw [Nat.zero_add, hlen]
        exact min_eq_left hLle
      rw [hmin]
      rw [if_neg (by intro hcc; exact absurd hcc.1 (lt_irrefl L))]
      refine ⟨_, rfl, ?_⟩
      unfold fs_read
      rw [load_save _ _ _ (by rw [hit2, hit]; exact hn) rfl]
      simp only []
      rw [hsubL, min_self, Nat.zero_div, Nat.zero_mod, List.drop_zero]
      obtain ⟨steps2, hR, _⟩ := readLoopD_chunks cfg buf L hBS
        (fs_save_inode fs2 n ⟨true, L,
          bs ++ List.replicate (cfg.pointersPerInode - upperRound L cfg.blockSize) 0, 0⟩)
        bs (cfg.pointersPerInode - upperRound L cfg.blockSize) 0 0 []
        (Nat.zero_le L) (fun b hb => (hprops b hb).1)
        (fun i hi hlt t ht => by
          show fs2.data (bs.get ⟨i, hi⟩) t = buf (0 + i * cfg.blockSize + t)
          rw [hdataW i hi hlt t, if_pos ht])
      rw [hR]
      simp only []
      rw [hmin]
      rw [if_neg (by intro hcc; exact absurd hcc.1 (lt_irrefl L))]
      rw [if_pos rfl]
      rw [List.nil_append, Nat.sub_zero]
      congr 1
      apply List.map_congr_left
      intro t _
      rw [Nat.zero_add]
    · -- the file spills into the indirect block
      push_neg at hc
      have hindne : ind ≠ 0 := hindiff.2 hc
      have hPPIlt : cfg.pointersPerInode * cfg.blockSize < L :=
        mul_lt_of_upperRound hBS hc
      have htakelen : (bs.take cfg.pointersPerInode).length = cfg.pointersPerInode := by
        rw [List.length_take, hlen]
        omega
      have hdroplen : (bs.drop cfg.pointersPerInode).length =
          upperRound L cfg.blockSize - cfg.pointersPerInode := by
        rw [List.length_drop, hlen]
      obtain ⟨fs2, steps1, hW1, hsteps1, hit2, hfree2, hdb2, hib2, hdataq1, hdatahi1, hdataW1⟩ :=
        writeLoop_chunks cfg buf L hBS (bs.take cfg.pointersPerInode)
          (cfg.pointersPerInode - min (upperRound L cfg.blockSize) cfg.pointersPerInode)
          0 0 fs' (Nat.zero_le L)
          (fun b hb => ⟨(hprops b (List.mem_of_mem_take hb)).1,
            by rw [hdb]; exact (hprops b (List.mem_of_mem_take hb)).2.2⟩)
          (List.Nodup.sublist (List.take_sublist _ _) hnodup)
      rw [hW1]
      simp only []
      have hbw1 : min L (0 + (bs.take cfg.pointersPerInode).length * cfg.blockSize) =
          cfg.pointersPerInode * cfg.blockSize := by
        rw [Nat.zero_add, htakelen]
        exact min_eq_right (le_of_lt hPPIlt)
      rw [hbw1]
      rw [if_pos ⟨hPPIlt, hindne⟩]
      have hst1 : steps1 = 0 + (bs.take cfg.pointersPerInode).length :=
        hsteps1 (by rw [hbw1]; exact hPPIlt)
      have hj0 : sub64 (0 + steps1) cfg.pointersPerInode = 0 := by
        rw [hst1, htakelen]
        simp [sub64]
      rw [hj0]
      have hptr2 : readPtrBlock cfg fs2 ind = bs.drop cfg.pointersPerInode ++
          List.replicate (cfg.pointersPerBlock -
            (upperRound L cfg.blockSize - cfg.pointersPerInode)) 0 := by
        rw [← hptr hindne]
        unfold readPtrBlock
        apply List.map_congr_left
        intro j _
        rw [hdataq1 ind (fun hcc => (hindp hindne).1 (List.mem_of_mem_take hcc))]
      rw [hptr2, List.drop_zero]
      obtain ⟨fs3, steps2, hW2, hsteps2, hit3, hfree3, hdb3, hib3, hdataq2, hdatahi2, hdataW2⟩ :=
        writeLoop_chunks cfg buf L hBS (bs.drop cfg.pointersPerInode)
          (cfg.pointersPerBlock - (upperRound L cfg.blockSize - cfg.pointersPerInode))
          (cfg.pointersPerInode * cfg.blockSize) 0 fs2 (le_of_lt hPPIlt)
          (fun b hb => ⟨(hprops b (List.mem_of_mem_drop hb)).1,
            by rw [hdb2, hdb]; exact (hprops b (List.mem_of_mem_drop hb)).2.2⟩)
          (List.Nodup.sublist (List.drop_sublist _ _) hnodup)
      rw [hW2]
      simp only []
      have hbw2 : min L (cfg.pointersPerInode * cfg.blockSize +
          (bs.drop cfg.pointersPerInode).length * cfg.blockSize) = L := by
        rw [hdroplen, ← Nat.add_mul, Nat.add_sub_cancel' (le_of_lt hc)]
        exact min_eq_left hLle
      rw [hbw2]
      refine ⟨_, rfl, ?_⟩
      unfold fs_read
      rw [load_save _ _ _ (by rw [hit3, hit2, hit]; exact hn) rfl]
      simp only []
      rw [hsubL, min_self, Nat.zero_div, Nat.zero_mod, List.drop_zero]
      obtain ⟨steps3, hR1, hsteps3⟩ := readLoopD_chunks cfg buf L hBS
        (fs_save_inode fs3 n ⟨true, L, bs.take cfg.pointersPerInode ++
          List.replicate (cfg.pointersPerInode -
            min (upperRound L cfg.blockSize) cfg.pointersPerInode) 0, ind⟩)
        (bs.take cfg.pointersPerInode)
        (cfg.pointersPerInode - min (upperRound L cfg.blockSize) cfg.pointersPerInode)
        0 0 [] (Nat.zero_le L)
        (fun b hb => (hprops b (List.mem_of_mem_take hb)).1)
        (fun i hi hlt t ht => by
          have hmem : (bs.take cfg.pointersPerInode).get ⟨i, hi⟩ ∈
              bs.take cfg.pointersPerInode := List.get_mem _ _ _
          have hnotd : (bs.take cfg.pointersPerInode).get ⟨i, hi⟩ ∉
              bs.drop cfg.pointersPerInode :=
            fun hcc => (List.disjoint_take_drop hnodup (le_refl _)) hmem hcc
          show fs3.data ((bs.take cfg.pointersPerInode).get ⟨i, hi⟩) t =
            buf (0 + i * cfg.blockSize + t)
          rw [hdataq2 _ hnotd, hdataW1 i hi hlt t, if_pos ht])
      rw [hR1]
      simp only []
      rw [hbw1]
      rw [if_pos ⟨hPPIlt, hindne⟩]
      have hst3 : steps3 = 0 + (bs.take cfg.pointersPerInode).length :=
        hsteps3 (by rw [hbw1]; exact hPPIlt)
      have hj0r : sub64 (0 + steps3) cfg.pointersPerInode = 0 := by
        rw [hst3, htakelen]
        simp [sub64]
      rw [hj0r]
      have hptr3 : readPtrBlock cfg
          (fs_save_inode fs3 n ⟨true, L, bs.take cfg.pointersPerInode ++
            List.replicate (cfg.pointersPerInode -
              min (upperRound L cfg.blockSize) cfg.pointersPerInode) 0, ind⟩) ind =
          bs.drop cfg.pointersPerInode ++
          List.replicate (cfg.pointersPerBlock -
            (upperRound L cfg.blockSize - cfg.pointersPerInode)) 0 := by
        rw [← hptr2]
        unfold readPtrBlock fs_save_inode
        apply List.map_congr_left
        intro j _
        show fs3.data ind j = fs2.data ind j
        rw [hdataq2 ind (fun hcc => (hindp hindne).1 (List.mem_of_mem_drop hcc))]
      rw [hptr3, List.drop_zero]
      have hIeq := readLoopI_chunks cfg buf L hBS
        (fs_save_inode fs3 n ⟨true, L, bs.take cfg.pointersPerInode ++
          List.replicate (cfg.pointersPerInode -
            min (upperRound L cfg.blockSize) cfg.pointersPerInode) 0, ind⟩)
        (bs.drop cfg.pointersPerInode)
        (cfg.pointersPerBlock - (upperRound L cfg.blockSize - cfg.pointersPerInode))
        (cfg.pointersPerInode * cfg.blockSize) [] (le_of_lt hPPIlt)
        (fun b hb => (hprops b (List.mem_of_mem_drop hb)).1)
        (fun i hi hlt t ht => by
          show fs3.data ((bs.drop cfg.pointersPerInode).get ⟨i, hi⟩) t =
            buf (cfg.pointersPerInode * cfg.blockSize + i * cfg.blockSize + t)
          rw [hdataW2 i hi hlt t, if_pos ht])
      rw [hIeq]
      simp only []
      rw [hbw2]
      rw [if_pos rfl]
      congr 1
      simp only [List.nil_append, Nat.sub_zero]
      have h1 : (List.range (cfg.pointersPerInode * cfg.blockSize)).map
          (fun t => buf (0 + t)) =
          (List.range (cfg.pointersPerInode * cfg.blockSize)).map buf := by
        apply List.map_congr_left
        intro t _
        rw [Nat.zero_add]
      rw [h1]
      conv_rhs => rw [show L = cfg.pointersPerInode * cfg.blockSize +
        (L - cfg.pointersPerInode * cfg.blockSize) from
        (Nat.add_sub_cancel' (le_of_lt hPPIlt)).symm]
      rw [map_range_split]

/-- Witness for the C1 round trip at a concrete 20-byte file (3 data
blocks: 2 direct plus 1 behind the indirect index block). -/
theorem write_read_round_trip_witness :
    1 ≤ cfgW.blockSize ∧
    20 ≤ (cfgW.pointersPerInode + cfgW.pointersPerBlock) * cfgW.blockSize ∧
    20 < SIZE_T_MOD ∧
    fsW1.itable.getD 0 defaultInode =
      ⟨true, 0, List.replicate cfgW.pointersPerInode 0, 0⟩ ∧
    neededBlocks cfgW 20 ≤ countFreeData fsW1 ∧
    ∃ fs2, fs_write cfgW fsW1 0 bufW3 20 0 = some (20, fs2) ∧
      fs_read cfgW fs2 0 20 0 = ReadResult.ok 20 ((List.range 20).map bufW3) :=
  ⟨by decide, by decide, by norm_num [SIZE_T_MOD], rfl, by decide,
    write_read_round_trip cfgW fsW1 0 bufW3 20 (by decide) (by decide)
      (by norm_num [SIZE_T_MOD]) rfl (by decide)⟩

end SFS
